import Mathlib

/-!
# Blux: value resolution, DMX output, quaternions and parameter links

A shallow embedding of the value-resolution pipeline (filters, effects, weighted
blending), of the DMX output subsystem (universes, channel buffers, change
detection), of the quaternion functions of Quaternion.hpp and of the link label of
LinkableParameterEditor.cpp of Blux, with the properties of the specification stated
over it.

Numbers that are `float` in the value-resolution sources are rationals here, so that
every statement is about exact arithmetic and every definition can be evaluated; the
`double` values of the quaternion functions, which need square roots and
trigonometric functions, are real numbers.
The definitions come first, then the lemmas and the claims.
-/

namespace Blux

/-! ## Filters (Source/Effect/Filter/Filter.h) -/

/-- An object of the scene, identified by a number. -/
abbrev Object := Nat

/-- A component of an object. -/
abbrev ObjectComponent := Nat

/-- A parameter of a component (`Parameter*` used as a hash-map key). -/
abbrev Parameter := Nat

/-- The struct `FilterResult` of Filter.h: `int id = -1; float weight = 1;`. -/
structure FilterResult where
  id : Int := -1
  weight : ℚ := 1
deriving DecidableEq

/-- The enum `Filter::IDMode` of Filter.h, in declaration order. -/
inductive IDMode where
  | NO_CHANGE
  | LOCAL
  | LOCAL_REVERSE
  | RANDOMIZED
deriving DecidableEq, Repr

/-- The class `Filter` of Filter.h: its three parameters and its two virtual
methods, given as functions. The scene methods declared there without a body are
not embedded. -/
structure Filter where
  idMode : IDMode
  invert : Bool
  excludeFromScenes : Bool
  isAffectingObject : Object → Bool
  getFilteredResultForComponentInternal : Object → ObjectComponent → FilterResult

/-- Modelled from the spec: an evaluation session (one blend pass), absent from the
sources: the registered objects in order, and the pseudo-random source of the session,
`rand i` being its draw number `i`. -/
structure EvaluationSession where
  objects : List Object
  rand : Nat → Nat

/-- Modelled from the spec: the pseudo-random permutation of `[0,k)` of a session
(its generation is absent from the sources): an insertion shuffle, the value `i` being
inserted at the position drawn for it among the `i + 1` possible ones. -/
def randomizedOrder (rand : Nat → Nat) : Nat → List Nat
  | 0 => []
  | k + 1 => (randomizedOrder rand k).insertIdx (rand k % (k + 1)) k

namespace Filter

/-- Modelled from the spec: the matching set of a session, the objects the filter
affects, in registration order. -/
def matchingObjects (f : Filter) (s : EvaluationSession) : List Object :=
  s.objects.filter f.isAffectingObject

/-- Modelled from the spec: the id-mode remapping of `getFilteredResultForComponent`
(body absent from the sources). `NO_CHANGE` keeps the id; `LOCAL` is the 0-based
position among the matching objects; `LOCAL_REVERSE` is that position counted from the
end; `RANDOMIZED` sends the position through the permutation of the session. An object
outside the matching set keeps its id. -/
def remapId (f : Filter) (s : EvaluationSession) (o : Object) (id : Int) : Int :=
  if o ∈ f.matchingObjects s then
    match f.idMode with
    | IDMode.NO_CHANGE => id
    | IDMode.LOCAL => ((f.matchingObjects s).indexOf o : Nat)
    | IDMode.LOCAL_REVERSE =>
        (((f.matchingObjects s).length - 1 - (f.matchingObjects s).indexOf o : Nat) : Int)
    | IDMode.RANDOMIZED =>
        (((randomizedOrder s.rand (f.matchingObjects s).length).getD
          ((f.matchingObjects s).indexOf o) 0 : Nat) : Int)
  else id

/-- Modelled from the spec: `Filter::getFilteredResultForComponent` (declared in
Filter.h, body absent): the result of the virtual internal method, with the weight
inverted (`1 - weight`) when `invert` is set, and the id remapped by the id mode. -/
def getFilteredResultForComponent (f : Filter) (s : EvaluationSession) (o : Object)
    (c : ObjectComponent) : FilterResult :=
  let r := f.getFilteredResultForComponentInternal o c
  { id := f.remapId s o r.id, weight := if f.invert then 1 - r.weight else r.weight }

end Filter

/-! ## Value resolution engine -/

/-- Current values handed to an effect (`const HashMap<Parameter*, var>& values`):
every parameter carries its base value before the first effect. -/
abbrev Values := Parameter → ℚ

/-- Target values written by an effect (`HashMap<Parameter*, var>& targetValues`):
only the parameters the effect touches are present. -/
abbrev TargetValues := Parameter → Option ℚ

/-- Modelled from the spec: the resolution engine is absent from the sources; this
is the linear interpolation of step 3, `current*(1-weight) + target*weight`. -/
def blend (current target w : ℚ) : ℚ := current * (1 - w) + target * w

/-- Modelled from the spec: the defensive clamp of step 3 (absent from the sources),
bringing whatever weight the filter produced into `[0,1]`. -/
def clampWeight (w : ℚ) : ℚ := max 0 (min w 1)

/-- Modelled from the spec: step 3 of the resolution algorithm (absent from the
sources). Every parameter present in `targetValues` is blended into the current
values with the clamped weight; the other parameters are left as they are. -/
def blendInto (current : Values) (targets : TargetValues) (weight : ℚ) : Values :=
  fun p =>
    match targets p with
    | none => current p
    | some t => blend (current p) t (clampWeight weight)

/-- Modelled from the spec: an effect as the engine sees it (the class `Effect` is
absent from the sources): an optional filter and the processing function
`processComponentInternal(o, c, values, targetValues, id, time)`, returning the
target values it writes. -/
structure Effect where
  filter : Option Filter
  processComponentInternal :
    Object → ObjectComponent → Values → Int → ℚ → TargetValues

/-- Modelled from the spec: `OverrideFloatEffect::processComponentInternal` (declared
in OverrideEffect.h, body absent) replaces the value of the parameter it is
attached to by the constant `value`, and touches nothing else. -/
def OverrideFloatEffect (filter : Option Filter) (param : Parameter) (value : ℚ) : Effect where
  filter := filter
  processComponentInternal := fun _ _ _ _ _ p => if p = param then some value else none

/-- Modelled from the spec: step 2 of the resolution algorithm (absent from the
sources). `none` when the filter reports that the object is not affected; the
default `FilterResult` (id -1, weight 1) when the effect has no filter. -/
def filterResultFor (s : EvaluationSession) (e : Effect) (o : Object) (c : ObjectComponent) :
    Option FilterResult :=
  match e.filter with
  | none => some {}
  | some f =>
    if f.isAffectingObject o then some (f.getFilteredResultForComponent s o c) else none

/-- Modelled from the spec: one iteration of the loop of steps 2 and 3 (absent from
the sources): skip a non-affecting effect, otherwise process and blend. -/
def applyEffect (s : EvaluationSession) (o : Object) (c : ObjectComponent) (time : ℚ)
    (current : Values) (e : Effect) : Values :=
  match filterResultFor s e o c with
  | none => current
  | some r => blendInto current (e.processComponentInternal o c current r.id time) r.weight

/-- Modelled from the spec: the whole resolution (steps 1 to 4, absent from the
sources): fold the effect stack in declaration order, starting from the base values. -/
def resolve (s : EvaluationSession) (o : Object) (c : ObjectComponent) (time : ℚ)
    (base : Values) (stack : List Effect) : Values :=
  stack.foldl (applyEffect s o c time) base

/-- A filter that affects every object and yields the given weight for every component. -/
def constantFilter (weight : ℚ) : Filter where
  idMode := IDMode.NO_CHANGE
  invert := false
  excludeFromScenes := false
  isAffectingObject := fun _ => true
  getFilteredResultForComponentInternal := fun _ _ => { weight := weight }

/-- The stack of override effects on `param` described by a list of
(target value, filter weight) pairs, in declaration order. -/
def overrideStack (param : Parameter) (effects : List (ℚ × ℚ)) : List Effect :=
  effects.map fun tw => OverrideFloatEffect (some (constantFilter tw.2)) param tw.1

/-! ## DMX universes and the DMX interface (Source/Interface/interfaces/dmx/DMXInterface.h) -/

/-- Number of channels of a universe. -/
def DMX_NUM_CHANNELS : Nat := 512

/-- Modelled from the spec: the class `DMXUniverse` is absent from the sources (only
pointers to it appear in DMXInterface.h). A universe carries its address triple, a
buffer of 512 byte-valued channels (indexed from 0), one dirty flag per channel and an
aggregate dirty flag. -/
structure DMXUniverse where
  net : Nat
  subnet : Nat
  uni : Nat
  values : Nat → Nat
  channelDirty : Nat → Bool
  isDirty : Bool

namespace DMXUniverse

/-- Modelled from the spec: a freshly created universe (constructor absent from the
sources): every channel at 0, nothing dirty. -/
def create (net subnet uni : Nat) : DMXUniverse where
  net := net
  subnet := subnet
  uni := uni
  values := fun _ => 0
  channelDirty := fun _ => false
  isDirty := false

/-- Modelled from the spec: `getChannel(index)` (absent from the sources). -/
def getChannel (u : DMXUniverse) (index : Nat) : Nat := u.values index

/-- Modelled from the spec: `setChannel(index, value)` (absent from the sources). An
index outside `[0,511]` is rejected; otherwise the byte is written, and the channel and
the aggregate are marked dirty if the written value differs from the stored value. -/
def setChannel (u : DMXUniverse) (index : Nat) (value : Nat) : DMXUniverse :=
  if index < DMX_NUM_CHANNELS then
    if u.values index = value % 256 then u
    else
      { u with
        values := Function.update u.values index (value % 256)
        channelDirty := Function.update u.channelDirty index true
        isDirty := true }
  else u

/-- The loop of `setDMXValue` over the values, writing consecutive channels from
buffer index `index` on. -/
def setChannels (u : DMXUniverse) (index : Nat) : List Nat → DMXUniverse
  | [] => u
  | v :: vs => setChannels (u.setChannel index v) (index + 1) vs

/-- Tells whether writing `values` from buffer index `index` on changes a stored byte
(writes past the last channel are rejected and change nothing). -/
def changedBy (u : DMXUniverse) (index : Nat) : List Nat → Bool
  | [] => false
  | v :: vs =>
    (decide (index < DMX_NUM_CHANNELS) && (u.values index != v % 256))
      || changedBy u (index + 1) vs

/-- Modelled from the spec: `snapshotForSend()` (absent from the sources) returns the
buffer and the dirty flag, then clears the dirty state. -/
def snapshotForSend (u : DMXUniverse) : (Nat → Nat) × Bool × DMXUniverse :=
  (u.values, u.isDirty, { u with channelDirty := fun _ => false, isDirty := false })

end DMXUniverse

/-- A buffer handed to the device for one universe (a pointer into `universes`). -/
structure Transmission where
  ptr : Nat
  buffer : Nat → Nat

/-- Modelled from the spec: the state of `DMXInterface` that the send path uses (the
members are declared in DMXInterface.h, the method bodies are absent). `universes`
is the owned array, a universe pointer being a position in it; `universeIdMap` is the
`HashMap<int, DMXUniverse*>`; `universesToSend` is the pending-send set of the tick. -/
structure DMXInterface where
  deviceAttached : Bool
  sendOnChangeOnly : Bool
  universes : List DMXUniverse
  universeIdMap : Int → Option Nat
  universesToSend : List Nat

namespace DMXInterface

/-- An interface without any universe. -/
def empty (deviceAttached sendOnChangeOnly : Bool) : DMXInterface where
  deviceAttached := deviceAttached
  sendOnChangeOnly := sendOnChangeOnly
  universes := []
  universeIdMap := fun _ => none
  universesToSend := []

/-- Modelled from the spec: `DMXInterface::getUniverse` (declared in DMXInterface.h,
body absent). The address is looked up in `universeIdMap` through its int key; the
encoding `universeIndex` of a triple as that key is absent from the sources and is a
parameter. An unknown key creates the universe when `createIfNotExist` is set. -/
def getUniverse (universeIndex : Nat → Nat → Nat → Int) (itf : DMXInterface)
    (net subnet uni : Nat) (createIfNotExist : Bool) : Option Nat × DMXInterface :=
  match itf.universeIdMap (universeIndex net subnet uni) with
  | some u => (some u, itf)
  | none =>
    if createIfNotExist then
      (some itf.universes.length,
        { itf with
          universes := itf.universes ++ [DMXUniverse.create net subnet uni]
          universeIdMap :=
            Function.update itf.universeIdMap (universeIndex net subnet uni)
              (some itf.universes.length) })
    else (none, itf)

/-- Modelled from the spec: `DMXInterface::setDMXValue` (declared in DMXInterface.h,
body absent) writes a contiguous run of channels starting at `startChannel` (channels
are numbered from 1) into the addressed universe, created on demand, and records the
universe in the pending-send set. Start channel 0 is rejected as an invalid address;
channels past 512 are rejected by `setChannel`. -/
def setDMXValue (universeIndex : Nat → Nat → Nat → Int) (itf : DMXInterface)
    (net subnet uni startChannel : Nat) (values : List Nat) : DMXInterface :=
  if startChannel = 0 then itf
  else
    match getUniverse universeIndex itf net subnet uni true with
    | (none, itf1) => itf1
    | (some ptr, itf1) =>
      match itf1.universes[ptr]? with
      | none => itf1
      | some u =>
        { itf1 with
          universes := itf1.universes.set ptr (u.setChannels (startChannel - 1) values)
          universesToSend :=
            if ptr ∈ itf1.universesToSend then itf1.universesToSend
            else itf1.universesToSend ++ [ptr] }

/-- The universe a triple currently resolves to, if any (`getUniverse` without
creation, followed by the dereference). -/
def universeAt (universeIndex : Nat → Nat → Nat → Int) (itf : DMXInterface)
    (net subnet uni : Nat) : Option DMXUniverse :=
  match (getUniverse universeIndex itf net subnet uni false).1 with
  | none => none
  | some ptr => itf.universes[ptr]?

/-- One call of `setDMXValue` issued for an object: an address, a start channel and
the values of the run. -/
structure DMXWrite where
  net : Nat
  subnet : Nat
  uni : Nat
  startChannel : Nat
  values : List Nat

/-- Modelled from the spec: `DMXInterface::sendValuesForObjectInternal` (declared in
DMXInterface.h, body absent) maps the resolved values of one object onto addresses
through `setDMXValue`; the object is given by the writes it maps to. -/
def sendValuesForObjectInternal (universeIndex : Nat → Nat → Nat → Int) (itf : DMXInterface)
    (object : List DMXWrite) : DMXInterface :=
  object.foldl
    (fun i w => setDMXValue universeIndex i w.net w.subnet w.uni w.startChannel w.values) itf

/-- Modelled from the spec: step 3 of the tick for one pending universe: snapshot it,
skip the transmission when `sendOnChangeOnly` is set and it was not dirty, otherwise
hand the buffer to the device. -/
def sendUniverse (st : DMXInterface × List Transmission) (ptr : Nat) :
    DMXInterface × List Transmission :=
  match st.1.universes[ptr]? with
  | none => st
  | some u =>
    let snap := u.snapshotForSend
    let itf1 : DMXInterface := { st.1 with universes := st.1.universes.set ptr snap.2.2 }
    if st.1.sendOnChangeOnly && !snap.2.1 then (itf1, st.2)
    else (itf1, st.2 ++ [{ ptr := ptr, buffer := snap.1 }])

/-- Modelled from the spec: step 3 of the tick over the whole pending-send set, which
is emptied afterwards. -/
def sendPendingUniverses (itf : DMXInterface) : DMXInterface × List Transmission :=
  let r := itf.universesToSend.foldl sendUniverse (itf, [])
  ({ r.1 with universesToSend := [] }, r.2)

/-- Modelled from the spec: one tick of the send thread (the body of
`DMXInterface::run` is absent from the sources), channel testing off: without a
device nothing happens; otherwise the values of every object are written, then every
touched universe is snapshotted and possibly transmitted. The result is the new state
and the transmissions of the tick, in order. -/
def runTick (universeIndex : Nat → Nat → Nat → Int) (itf : DMXInterface)
    (objects : List (List DMXWrite)) : DMXInterface × List Transmission :=
  if itf.deviceAttached then
    sendPendingUniverses (objects.foldl (sendValuesForObjectInternal universeIndex) itf)
  else (itf, [])

/-- The transmissions of consecutive ticks, one list per tick; each tick is given by
the writes of its objects. -/
def run (universeIndex : Nat → Nat → Nat → Int) (itf : DMXInterface) :
    List (List (List DMXWrite)) → List (List Transmission)
  | [] => []
  | objects :: rest =>
    (runTick universeIndex itf objects).2
      :: run universeIndex (runTick universeIndex itf objects).1 rest

/-- Consistency of the universe registry: every pointer stored in `universeIdMap`
points into `universes`, and no two keys share a pointer. -/
def WellFormed (itf : DMXInterface) : Prop :=
  ∀ k p, itf.universeIdMap k = some p →
    p < itf.universes.length ∧ ∀ k2, itf.universeIdMap k2 = some p → k2 = k

/-- Tells whether the universe behind a pointer is dirty. -/
def dirtyAt (itf : DMXInterface) (ptr : Nat) : Bool :=
  match itf.universes[ptr]? with
  | some u => u.isDirty
  | none => false

/-- The state between two ticks of an interface with a device and `sendOnChangeOnly`
set, in which the universe addressed by `w` stores the values of `w` and is clean. -/
def Settled (universeIndex : Nat → Nat → Nat → Int) (itf : DMXInterface) (w : DMXWrite) : Prop :=
  itf.deviceAttached = true ∧ itf.sendOnChangeOnly = true ∧ itf.universesToSend = [] ∧
  WellFormed itf ∧
  ∃ u, universeAt universeIndex itf w.net w.subnet w.uni = some u ∧ u.isDirty = false ∧
    u.changedBy (w.startChannel - 1) w.values = false

end DMXInterface

/-- One injective encoding of an address triple as an int key, used to evaluate
examples (the encoding of the sources is absent). -/
def pairedUniverseIndex (net subnet uni : Nat) : Int :=
  ((Nat.pair (Nat.pair net subnet) uni : Nat) : Int)

/-! ## Vectors and quaternions (Source/Object/Component/components/orientation/Quaternion.hpp)

The `double` values of the source are real numbers here. `sqrt`, `acos` and the
division are the total functions of the reals; they agree with the C functions on a
non-negative radicand, on an argument of `acos` within `[-1,1]` and on a non-zero
divisor, and the statements below keep every argument inside these domains. -/

noncomputable section

/-- The struct `Vector3` of Quaternion.hpp. -/
@[ext]
structure Vector3 where
  X : ℝ
  Y : ℝ
  Z : ℝ

namespace Vector3

/-- The vector `Vector3::Zero()`, which `Vector3::Normalized` returns for a vector of
magnitude zero (used but not declared in the struct of Quaternion.hpp). -/
def Zero : Vector3 := ⟨0, 0, 0⟩

/-- The function `Vector3::Cross`. -/
def Cross (lhs rhs : Vector3) : Vector3 :=
  ⟨lhs.Y * rhs.Z - lhs.Z * rhs.Y, lhs.Z * rhs.X - lhs.X * rhs.Z, lhs.X * rhs.Y - lhs.Y * rhs.X⟩

/-- The function `Vector3::Dot`. -/
def Dot (lhs rhs : Vector3) : ℝ := lhs.X * rhs.X + lhs.Y * rhs.Y + lhs.Z * rhs.Z

/-- The function `Vector3::SqrMagnitude`. -/
def SqrMagnitude (v : Vector3) : ℝ := v.X * v.X + v.Y * v.Y + v.Z * v.Z

/-- The operator `Vector3 + Vector3`. -/
def add (lhs rhs : Vector3) : Vector3 := ⟨lhs.X + rhs.X, lhs.Y + rhs.Y, lhs.Z + rhs.Z⟩

/-- The operator `Vector3 * double`. -/
def mulScalar (lhs : Vector3) (rhs : ℝ) : Vector3 := ⟨lhs.X * rhs, lhs.Y * rhs, lhs.Z * rhs⟩

/-- The operator `Vector3 / double` that `Vector3::Normalized` uses (not declared in
the struct of Quaternion.hpp): the componentwise division. -/
def divScalar (lhs : Vector3) (rhs : ℝ) : Vector3 := ⟨lhs.X / rhs, lhs.Y / rhs, lhs.Z / rhs⟩

/-- The function `Vector3::Normalized`. -/
def Normalized (v : Vector3) : Vector3 :=
  if Real.sqrt (v.X * v.X + v.Y * v.Y + v.Z * v.Z) = 0 then Zero
  else divScalar v (Real.sqrt (v.X * v.X + v.Y * v.Y + v.Z * v.Z))

/-- The function `Vector3::Orthogonal`. -/
def Orthogonal (v : Vector3) : Vector3 :=
  if v.Z < v.X then ⟨v.Y, -v.X, 0⟩ else ⟨0, -v.Z, v.Y⟩

end Vector3

/-- The struct `unityports::Quaternion` of Quaternion.hpp. -/
@[ext]
structure Quaternion where
  X : ℝ
  Y : ℝ
  Z : ℝ
  W : ℝ

namespace Quaternion

/-- The constructor `Quaternion(Vector3 vector, double scalar)`. -/
def ofVector (vector : Vector3) (scalar : ℝ) : Quaternion :=
  ⟨vector.X, vector.Y, vector.Z, scalar⟩

/-- The constant `Quaternion::Identity()`. -/
def Identity : Quaternion := ⟨0, 0, 0, 1⟩

/-- The operator `Quaternion * double` (`operator*=(const double)`). -/
def mulScalar (lhs : Quaternion) (rhs : ℝ) : Quaternion :=
  ⟨lhs.X * rhs, lhs.Y * rhs, lhs.Z * rhs, lhs.W * rhs⟩

/-- The operator `Quaternion / double` (`operator/=(const double)`). -/
def divScalar (lhs : Quaternion) (rhs : ℝ) : Quaternion :=
  ⟨lhs.X / rhs, lhs.Y / rhs, lhs.Z / rhs, lhs.W / rhs⟩

/-- The operator `Quaternion + Quaternion` (`operator+=(const Quaternion)`). -/
def add (lhs rhs : Quaternion) : Quaternion :=
  ⟨lhs.X + rhs.X, lhs.Y + rhs.Y, lhs.Z + rhs.Z, lhs.W + rhs.W⟩

/-- The operator `Quaternion - Quaternion` (`operator-=(const Quaternion)`). -/
def sub (lhs rhs : Quaternion) : Quaternion :=
  ⟨lhs.X - rhs.X, lhs.Y - rhs.Y, lhs.Z - rhs.Z, lhs.W - rhs.W⟩

/-- The operator `Quaternion * Quaternion` (`operator*=(const Quaternion)`), the
Hamilton product. -/
def mul (lhs rhs : Quaternion) : Quaternion :=
  { W := lhs.W * rhs.W - lhs.X * rhs.X - lhs.Y * rhs.Y - lhs.Z * rhs.Z
    X := lhs.X * rhs.W + lhs.W * rhs.X + lhs.Y * rhs.Z - lhs.Z * rhs.Y
    Y := lhs.W * rhs.Y - lhs.X * rhs.Z + lhs.Y * rhs.W + lhs.Z * rhs.X
    Z := lhs.W * rhs.Z + lhs.X * rhs.Y - lhs.Y * rhs.X + lhs.Z * rhs.W }

/-- The unary operator `-Quaternion`, `rhs * -1`. -/
def neg (rhs : Quaternion) : Quaternion := mulScalar rhs (-1)

/-- The operator `Quaternion * Vector3`, the rotation of a vector. -/
def rotate (lhs : Quaternion) (rhs : Vector3) : Vector3 :=
  Vector3.add
    (Vector3.add
      (Vector3.mulScalar ⟨lhs.X, lhs.Y, lhs.Z⟩ (Vector3.Dot ⟨lhs.X, lhs.Y, lhs.Z⟩ rhs * 2))
      (Vector3.mulScalar rhs
        (lhs.W * lhs.W - Vector3.Dot ⟨lhs.X, lhs.Y, lhs.Z⟩ ⟨lhs.X, lhs.Y, lhs.Z⟩)))
    (Vector3.mulScalar (Vector3.Cross ⟨lhs.X, lhs.Y, lhs.Z⟩ rhs) (2.0 * lhs.W))

/-- The function `Quaternion::Conjugate`. -/
def Conjugate (rotation : Quaternion) : Quaternion :=
  ⟨-rotation.X, -rotation.Y, -rotation.Z, rotation.W⟩

/-- The function `Quaternion::Dot`. -/
def Dot (lhs rhs : Quaternion) : ℝ :=
  lhs.X * rhs.X + lhs.Y * rhs.Y + lhs.Z * rhs.Z + lhs.W * rhs.W

/-- The function `Quaternion::Angle`. -/
def Angle (a b : Quaternion) : ℝ := Real.arccos (min |Dot a b| 1) * 2

/-- The function `Quaternion::Norm`. -/
def Norm (rotation : Quaternion) : ℝ :=
  Real.sqrt (rotation.X * rotation.X + rotation.Y * rotation.Y + rotation.Z * rotation.Z
    + rotation.W * rotation.W)

/-- The function `Quaternion::Normalized`. -/
def Normalized (rotation : Quaternion) : Quaternion := divScalar rotation (Norm rotation)

/-- The function `Quaternion::Inverse`. -/
def Inverse (rotation : Quaternion) : Quaternion :=
  divScalar (Conjugate rotation) (Norm rotation * Norm rotation)

/-- The function `Quaternion::FromAngleAxis`. -/
def FromAngleAxis (angle : ℝ) (axis : Vector3) : Quaternion :=
  { X := axis.X * (Real.sin (angle / 2)
      / Real.sqrt (axis.X * axis.X + axis.Y * axis.Y + axis.Z * axis.Z))
    Y := axis.Y * (Real.sin (angle / 2)
      / Real.sqrt (axis.X * axis.X + axis.Y * axis.Y + axis.Z * axis.Z))
    Z := axis.Z * (Real.sin (angle / 2)
      / Real.sqrt (axis.X * axis.X + axis.Y * axis.Y + axis.Z * axis.Z))
    W := Real.cos (angle / 2) }

/-- The function `Quaternion::FromEuler(double x, double y, double z)`. -/
def FromEuler (x y z : ℝ) : Quaternion :=
  { X := Real.cos (x * 0.5) * Real.sin (y * 0.5) * Real.sin (z * 0.5)
      + Real.cos (y * 0.5) * Real.cos (z * 0.5) * Real.sin (x * 0.5)
    Y := Real.cos (x * 0.5) * Real.cos (z * 0.5) * Real.sin (y * 0.5)
      - Real.cos (y * 0.5) * Real.sin (x * 0.5) * Real.sin (z * 0.5)
    Z := Real.cos (x * 0.5) * Real.cos (y * 0.5) * Real.sin (z * 0.5)
      - Real.cos (z * 0.5) * Real.sin (x * 0.5) * Real.sin (y * 0.5)
    W := Real.sin (x * 0.5) * Real.sin (y * 0.5) * Real.sin (z * 0.5)
      + Real.cos (x * 0.5) * Real.cos (y * 0.5) * Real.cos (z * 0.5) }

/-- The function `Quaternion::FromEuler(Vector3 rotation)`. -/
def FromEulerVector (rotation : Vector3) : Quaternion :=
  FromEuler rotation.X rotation.Y rotation.Z

/-- The function `Quaternion::FromToRotation`. -/
def FromToRotation (fromVector toVector : Vector3) : Quaternion :=
  if |Vector3.Dot fromVector toVector
        / Real.sqrt (Vector3.SqrMagnitude fromVector * Vector3.SqrMagnitude toVector) + 1|
      < 0.00001 then
    ofVector (Vector3.Normalized (Vector3.Orthogonal fromVector)) 0
  else
    Normalized (ofVector (Vector3.Cross fromVector toVector)
      (Vector3.Dot fromVector toVector
        + Real.sqrt (Vector3.SqrMagnitude fromVector * Vector3.SqrMagnitude toVector)))

/-- The function `Quaternion::LerpUnclamped`. -/
def LerpUnclamped (a b : Quaternion) (t : ℝ) : Quaternion :=
  if Dot a b ≥ 0 then Normalized (add (mulScalar a (1 - t)) (mulScalar b t))
  else Normalized (sub (mulScalar a (1 - t)) (mulScalar b t))

/-- The function `Quaternion::Lerp`. -/
def Lerp (a b : Quaternion) (t : ℝ) : Quaternion :=
  if t < 0 then Normalized a
  else if t > 1 then Normalized b
  else LerpUnclamped a b t

/-- The weights `(n2, n1)` that `Quaternion::SlerpUnclamped` computes for `a` and `b`. -/
def SlerpWeights (a b : Quaternion) (t : ℝ) : ℝ × ℝ :=
  if (if Dot a b < 0 then -Dot a b else Dot a b) > 0.999999 then
    (1 - t, if Dot a b < 0 then -t else t)
  else
    (Real.sin ((1 - t) * Real.arccos (if Dot a b < 0 then -Dot a b else Dot a b))
        * (1 / Real.sin (Real.arccos (if Dot a b < 0 then -Dot a b else Dot a b))),
      if Dot a b < 0 then
        -Real.sin (t * Real.arccos (if Dot a b < 0 then -Dot a b else Dot a b))
          * (1 / Real.sin (Real.arccos (if Dot a b < 0 then -Dot a b else Dot a b)))
      else
        Real.sin (t * Real.arccos (if Dot a b < 0 then -Dot a b else Dot a b))
          * (1 / Real.sin (Real.arccos (if Dot a b < 0 then -Dot a b else Dot a b))))

/-- The quaternion that `Quaternion::SlerpUnclamped` blends from `a` and `b` before it
normalizes it (its local variable `quaternion`). -/
def SlerpBlend (a b : Quaternion) (t : ℝ) : Quaternion :=
  { X := (SlerpWeights a b t).1 * a.X + (SlerpWeights a b t).2 * b.X
    Y := (SlerpWeights a b t).1 * a.Y + (SlerpWeights a b t).2 * b.Y
    Z := (SlerpWeights a b t).1 * a.Z + (SlerpWeights a b t).2 * b.Z
    W := (SlerpWeights a b t).1 * a.W + (SlerpWeights a b t).2 * b.W }

/-- The function `Quaternion::SlerpUnclamped`. -/
def SlerpUnclamped (a b : Quaternion) (t : ℝ) : Quaternion := Normalized (SlerpBlend a b t)

/-- The function `Quaternion::Slerp`. -/
def Slerp (a b : Quaternion) (t : ℝ) : Quaternion :=
  if t < 0 then Normalized a
  else if t > 1 then Normalized b
  else SlerpUnclamped a b t

/-- The quaternion that `Quaternion::ToAngleAxis` reads: the rotation itself, normalized
first when its `W` exceeds 1. -/
def ToAngleAxisInput (rotation : Quaternion) : Quaternion :=
  if rotation.W > 1 then Normalized rotation else rotation

/-- The function `Quaternion::ToAngleAxis`, returning its two outputs `(angle, axis)`. -/
def ToAngleAxis (rotation : Quaternion) : ℝ × Vector3 :=
  (2 * Real.arccos (ToAngleAxisInput rotation).W,
    if Real.sqrt (1 - (ToAngleAxisInput rotation).W * (ToAngleAxisInput rotation).W) < 0.00001
    then ⟨1, 0, 0⟩
    else
      ⟨(ToAngleAxisInput rotation).X
          / Real.sqrt (1 - (ToAngleAxisInput rotation).W * (ToAngleAxisInput rotation).W),
        (ToAngleAxisInput rotation).Y
          / Real.sqrt (1 - (ToAngleAxisInput rotation).W * (ToAngleAxisInput rotation).W),
        (ToAngleAxisInput rotation).Z
          / Real.sqrt (1 - (ToAngleAxisInput rotation).W * (ToAngleAxisInput rotation).W)⟩)

end Quaternion

end

/-! ## Parameter links (Source/Common/ParameterLink/ui/LinkableParameterEditor.cpp) -/

/-- The link types of `ParameterLink` that LinkableParameterEditor.cpp names (the enum
itself is declared in a header that is absent from the sources). -/
inductive LinkType where
  | NONE
  | OBJECT_ID
  | CUSTOM_PARAM
  | OBJECT_POSX
  | OBJECT_POSY
  | OBJECT_POSZ
  | OBJECT_POSXZ
  | OBJECT_POSXYZ
  | SPAT_X
  | SPAT_Z
  | SPAT_XZ
deriving DecidableEq, Repr

/-- A pointer to a named item (a custom parameter, a spatializer): null, pointing to a
deleted item, or pointing to a live item with its `niceName`. -/
inductive ItemPointer where
  | null
  | deleted
  | live (niceName : String)
deriving DecidableEq, Repr

/-- The dereference `pointer->niceName`: `none` stands for the fault of dereferencing a
null pointer or a deleted item. -/
def ItemPointer.niceName (p : ItemPointer) : Option String :=
  match p with
  | ItemPointer.null => none
  | ItemPointer.deleted => none
  | ItemPointer.live n => some n

/-- The members of `ParameterLink` that `getLinkLabel` reads: `linkType`,
`linkedCustomParam`, `spatializer` and `spatRef.wasObjectDeleted()`. -/
structure ParameterLink where
  linkType : LinkType
  linkedCustomParam : ItemPointer
  spatializer : ItemPointer
  spatRefWasObjectDeleted : Bool
deriving DecidableEq, Repr

/-- The name of the spatializer as the three `SPAT_` cases of `getLinkLabel` compute it:
`spatializer != nullptr && !spatRef.wasObjectDeleted() ? spatializer->niceName : "[deleted]"`. -/
def spatializerLabel (link : ParameterLink) : Option String :=
  if link.spatializer ≠ ItemPointer.null ∧ link.spatRefWasObjectDeleted = false then
    link.spatializer.niceName
  else some "[deleted]"

/-- The function `LinkableParameterEditor::getLinkLabel`; `none` stands for a fault. -/
def getLinkLabel (link : ParameterLink) : Option String :=
  match link.linkType with
  | LinkType.NONE => some ""
  | LinkType.OBJECT_ID => some "Object ID"
  | LinkType.CUSTOM_PARAM => link.linkedCustomParam.niceName.map (fun n => "Custom : " ++ n)
  | LinkType.OBJECT_POSX => some "Position X"
  | LinkType.OBJECT_POSY => some "Position Y"
  | LinkType.OBJECT_POSZ => some "Position Z"
  | LinkType.OBJECT_POSXZ => some "Position XZ"
  | LinkType.OBJECT_POSXYZ => some "Position XYZ"
  | LinkType.SPAT_X => (spatializerLabel link).map (fun n => "Spat X (" ++ n ++ ")")
  | LinkType.SPAT_Z => (spatializerLabel link).map (fun n => "Spat Z (" ++ n ++ ")")
  | LinkType.SPAT_XZ => (spatializerLabel link).map (fun n => "Spat XZ (" ++ n ++ ")")

/-! ## Lemmas on the value resolution engine -/

theorem clampWeight_nonneg (w : ℚ) : 0 ≤ clampWeight w := le_max_left _ _

theorem clampWeight_le_one (w : ℚ) : clampWeight w ≤ 1 :=
  max_le (by norm_num) (min_le_right _ _)

theorem clampWeight_of_mem {w : ℚ} (h0 : 0 ≤ w) (h1 : w ≤ 1) : clampWeight w = w := by
  unfold clampWeight
  rw [min_eq_left h1, max_eq_right h0]

theorem blend_between_of_weight {c t w : ℚ} (h0 : 0 ≤ w) (h1 : w ≤ 1) :
    min c t ≤ blend c t w ∧ blend c t w ≤ max c t := by
  unfold blend
  rcases le_total c t with h | h
  · rw [min_eq_left h, max_eq_right h]
    constructor <;> nlinarith
  · rw [min_eq_right h, max_eq_left h]
    constructor <;> nlinarith

theorem blendInto_weight_zero (current : Values) (targets : TargetValues) :
    blendInto current targets 0 = current := by
  have hc0 : clampWeight 0 = 0 := clampWeight_of_mem le_rfl (by norm_num)
  funext p
  unfold blendInto
  cases targets p with
  | none => rfl
  | some t => simp [hc0, blend]

theorem blendInto_weight_one (current : Values) (targets : TargetValues) (p : Parameter) :
    blendInto current targets 1 p = (targets p).getD (current p) := by
  have hc1 : clampWeight 1 = 1 := clampWeight_of_mem (by norm_num) le_rfl
  unfold blendInto
  cases targets p with
  | none => rfl
  | some t => simp [hc1, blend]

theorem applyEffect_override (s : EvaluationSession) (o : Object) (c : ObjectComponent)
    (time : ℚ) (current : Values) (param : Parameter) (t w : ℚ) :
    applyEffect s o c time current (OverrideFloatEffect (some (constantFilter w)) param t) param
      = blend (current param) t (clampWeight w) := by
  simp [applyEffect, filterResultFor, OverrideFloatEffect, constantFilter, blendInto,
    Filter.getFilteredResultForComponent]

theorem resolve_overrideStack (s : EvaluationSession) (o : Object) (c : ObjectComponent)
    (time : ℚ) (param : Parameter) (effects : List (ℚ × ℚ)) (base : Values) :
    resolve s o c time base (overrideStack param effects) param
      = effects.foldl (fun cur tw => blend cur tw.1 (clampWeight tw.2)) (base param) := by
  induction effects generalizing base with
  | nil => rfl
  | cons e rest ih =>
    have step := ih (applyEffect s o c time base
      (OverrideFloatEffect (some (constantFilter e.2)) param e.1))
    simp only [resolve, overrideStack, List.map_cons, List.foldl_cons] at step ⊢
    rw [step, applyEffect_override]

theorem foldl_blend_clamp_eq (effects : List (ℚ × ℚ))
    (h : ∀ tw ∈ effects, 0 ≤ tw.2 ∧ tw.2 ≤ 1) (b : ℚ) :
    effects.foldl (fun cur tw => blend cur tw.1 (clampWeight tw.2)) b
      = effects.foldl (fun cur tw => blend cur tw.1 tw.2) b := by
  induction effects generalizing b with
  | nil => rfl
  | cons e rest ih =>
    have he := h e (List.mem_cons_self _ _)
    simp only [List.foldl_cons]
    rw [clampWeight_of_mem he.1 he.2]
    exact ih (fun tw htw => h tw (List.mem_cons_of_mem _ htw)) _

/-! ## Lemmas on the randomized id order -/

theorem randomizedOrder_length (rand : Nat → Nat) (k : Nat) :
    (randomizedOrder rand k).length = k := by
  induction k with
  | zero => rfl
  | succ k ih =>
    rw [randomizedOrder, List.length_insertIdx _ _ (by
      rw [ih]
      exact Nat.le_of_lt_succ (Nat.mod_lt _ (Nat.succ_pos k))), ih]

theorem randomizedOrder_perm (rand : Nat → Nat) (k : Nat) :
    (randomizedOrder rand k).Perm (List.range k) := by
  induction k with
  | zero => exact List.Perm.refl _
  | succ k ih =>
    have hle : rand k % (k + 1) ≤ (randomizedOrder rand k).length := by
      rw [randomizedOrder_length]
      exact Nat.le_of_lt_succ (Nat.mod_lt _ (Nat.succ_pos k))
    rw [randomizedOrder, List.range_succ]
    exact (List.perm_insertIdx k _ hle).trans
      ((List.Perm.cons k ih).trans (List.perm_append_singleton k (List.range k)).symm)

theorem map_indexOf_of_nodup (m : List Nat) (h : m.Nodup) :
    m.map (fun o => m.indexOf o) = List.range m.length := by
  apply List.ext_getElem
  · simp
  · intro i h1 h2
    simp only [List.getElem_map, List.getElem_range]
    exact List.indexOf_getElem h i (by simpa using h1)

theorem map_getD_range (l : List Nat) :
    (List.range l.length).map (fun i => l.getD i 0) = l := by
  apply List.ext_getElem
  · simp
  · intro i h1 h2
    simp [List.getD, List.getElem?_eq_getElem h2]

theorem randomized_ids_eq (f : Filter) (s : EvaluationSession) (c : ObjectComponent)
    (hmode : f.idMode = IDMode.RANDOMIZED) (hobjs : s.objects.Nodup) :
    (f.matchingObjects s).map (fun o => (f.getFilteredResultForComponent s o c).id)
      = (randomizedOrder s.rand (f.matchingObjects s).length).map (fun i : Nat => (i : Int)) := by
  have hnd : (f.matchingObjects s).Nodup := hobjs.filter _
  have h1 : (f.matchingObjects s).map (fun o => (f.getFilteredResultForComponent s o c).id)
      = ((f.matchingObjects s).map (fun o => (f.matchingObjects s).indexOf o)).map
          (fun i : Nat => (((randomizedOrder s.rand (f.matchingObjects s).length).getD i 0 : Nat) : Int)) := by
    rw [List.map_map]
    apply List.map_congr_left
    intro o ho
    simp [Filter.getFilteredResultForComponent, Filter.remapId, ho, hmode]
  rw [h1, map_indexOf_of_nodup _ hnd]
  have h2 := map_getD_range (randomizedOrder s.rand (f.matchingObjects s).length)
  rw [randomizedOrder_length] at h2
  conv_rhs => rw [← h2]
  rw [List.map_map]
  rfl

/-! ## Lemmas on the DMX output -/

namespace DMXUniverse

theorem setChannel_values (u : DMXUniverse) (i v k : Nat) :
    (u.setChannel i v).values k
      = if k = i ∧ i < DMX_NUM_CHANNELS then v % 256 else u.values k := by
  unfold setChannel
  by_cases hi : i < DMX_NUM_CHANNELS
  · by_cases hv : u.values i = v % 256
    · by_cases hk : k = i
      · simp [hi, hv, hk]
      · simp [hi, hv, hk]
    · by_cases hk : k = i
      · simp [hi, hv, hk]
      · simp [hi, hv, hk, Function.update_noteq]
  · simp [hi]

theorem setChannel_isDirty (u : DMXUniverse) (i v : Nat) :
    (u.setChannel i v).isDirty
      = (u.isDirty || (decide (i < DMX_NUM_CHANNELS) && (u.values i != v % 256))) := by
  unfold setChannel
  by_cases hi : i < DMX_NUM_CHANNELS
  · by_cases hv : u.values i = v % 256
    · simp [hi, hv]
    · simp [hi, hv]
  · simp [hi]

theorem setChannels_values (u : DMXUniverse) (i : Nat) (vs : List Nat) (k : Nat) :
    (u.setChannels i vs).values k
      = if i ≤ k ∧ k < i + vs.length ∧ k < DMX_NUM_CHANNELS then vs.getD (k - i) 0 % 256
        else u.values k := by
  induction vs generalizing u i with
  | nil =>
    have h : ¬ (i ≤ k ∧ k < i + ([] : List Nat).length ∧ k < DMX_NUM_CHANNELS) := by
      simp only [List.length_nil]; omega
    rw [if_neg h]; rfl
  | cons v vs ih =>
    rw [setChannels, ih, setChannel_values]
    rcases Nat.lt_trichotomy k i with hlt | heq | hgt
    · have h1 : ¬ (i + 1 ≤ k ∧ k < i + 1 + vs.length ∧ k < DMX_NUM_CHANNELS) := by omega
      have h2 : ¬ (i ≤ k ∧ k < i + (v :: vs).length ∧ k < DMX_NUM_CHANNELS) := by omega
      have h3 : ¬ (k = i ∧ i < DMX_NUM_CHANNELS) := by omega
      rw [if_neg h1, if_neg h2, if_neg h3]
    · subst heq
      have h1 : ¬ (k + 1 ≤ k ∧ k < k + 1 + vs.length ∧ k < DMX_NUM_CHANNELS) := by omega
      rw [if_neg h1]
      by_cases hk : k < DMX_NUM_CHANNELS
      · simp [hk]
      · simp [hk]
    · have h3 : ¬ (k = i ∧ i < DMX_NUM_CHANNELS) := by omega
      rw [if_neg h3]
      have hki : k - i = (k - (i + 1)) + 1 := by omega
      by_cases hc : k < i + 1 + vs.length ∧ k < DMX_NUM_CHANNELS
      · have h1 : i + 1 ≤ k ∧ k < i + 1 + vs.length ∧ k < DMX_NUM_CHANNELS := ⟨hgt, hc⟩
        have h2 : i ≤ k ∧ k < i + (v :: vs).length ∧ k < DMX_NUM_CHANNELS := by
          simp only [List.length_cons]; omega
        rw [if_pos h1, if_pos h2, hki]
        simp
      · have h1 : ¬ (i + 1 ≤ k ∧ k < i + 1 + vs.length ∧ k < DMX_NUM_CHANNELS) := fun h => hc h.2
        have h2 : ¬ (i ≤ k ∧ k < i + (v :: vs).length ∧ k < DMX_NUM_CHANNELS) := by
          simp only [List.length_cons]; omega
        rw [if_neg h1, if_neg h2]

theorem changedBy_congr (u w : DMXUniverse) (i : Nat) (vs : List Nat)
    (h : ∀ k, i ≤ k → u.values k = w.values k) : u.changedBy i vs = w.changedBy i vs := by
  induction vs generalizing i with
  | nil => rfl
  | cons v vs ih =>
    simp only [changedBy]
    rw [h i le_rfl, ih (i + 1) (fun k hk => h k (by omega))]

theorem setChannels_isDirty (u : DMXUniverse) (i : Nat) (vs : List Nat) :
    (u.setChannels i vs).isDirty = (u.isDirty || u.changedBy i vs) := by
  induction vs generalizing u i with
  | nil => simp [setChannels, changedBy]
  | cons v vs ih =>
    rw [setChannels, ih, setChannel_isDirty]
    have hc : (u.setChannel i v).changedBy (i + 1) vs = u.changedBy (i + 1) vs := by
      apply changedBy_congr
      intro k hk
      rw [setChannel_values]
      have h3 : ¬ (k = i ∧ i < DMX_NUM_CHANNELS) := by omega
      rw [if_neg h3]
    rw [hc]
    simp only [changedBy, Bool.or_assoc]

theorem setChannels_address (u : DMXUniverse) (i : Nat) (vs : List Nat) :
    (u.setChannels i vs).net = u.net ∧ (u.setChannels i vs).subnet = u.subnet
      ∧ (u.setChannels i vs).uni = u.uni := by
  induction vs generalizing u i with
  | nil => simp [setChannels]
  | cons v vs ih =>
    rw [setChannels]
    have h := ih (u.setChannel i v) (i + 1)
    have hs : (u.setChannel i v).net = u.net ∧ (u.setChannel i v).subnet = u.subnet
        ∧ (u.setChannel i v).uni = u.uni := by
      unfold setChannel
      split_ifs <;> simp
    rw [h.1, h.2.1, h.2.2]
    exact hs

/-- Writing values that are all stored already leaves the universe as it is. -/
theorem setChannels_of_not_changedBy (u : DMXUniverse) (i : Nat) (vs : List Nat)
    (h : u.changedBy i vs = false) : u.setChannels i vs = u := by
  induction vs generalizing i with
  | nil => rfl
  | cons v vs ih =>
    simp only [changedBy, Bool.or_eq_false_iff] at h
    have hs : u.setChannel i v = u := by
      unfold setChannel
      by_cases hi : i < DMX_NUM_CHANNELS
      · have : u.values i = v % 256 := by simpa [hi] using h.1
        simp [hi, this]
      · simp [hi]
    rw [setChannels, hs]
    exact ih (i + 1) h.2

end DMXUniverse

namespace DMXInterface

theorem wellFormed_empty (d c : Bool) : WellFormed (empty d c) := by
  intro k p h
  simp [empty] at h

theorem getUniverse_of_known {universeIndex : Nat → Nat → Nat → Int} {itf : DMXInterface}
    {net subnet uni p : Nat} (b : Bool)
    (h : itf.universeIdMap (universeIndex net subnet uni) = some p) :
    getUniverse universeIndex itf net subnet uni b = (some p, itf) := by
  simp [getUniverse, h]

theorem getUniverse_of_unknown {universeIndex : Nat → Nat → Nat → Int} {itf : DMXInterface}
    {net subnet uni : Nat} (h : itf.universeIdMap (universeIndex net subnet uni) = none) :
    getUniverse universeIndex itf net subnet uni false = (none, itf) := by
  simp [getUniverse, h]

theorem getUniverse_create {universeIndex : Nat → Nat → Nat → Int} {itf : DMXInterface}
    {net subnet uni : Nat} (h : itf.universeIdMap (universeIndex net subnet uni) = none) :
    getUniverse universeIndex itf net subnet uni true
      = (some itf.universes.length,
          { itf with
            universes := itf.universes ++ [DMXUniverse.create net subnet uni]
            universeIdMap :=
              Function.update itf.universeIdMap (universeIndex net subnet uni)
                (some itf.universes.length) }) := by
  simp [getUniverse, h]

theorem wellFormed_getUniverse (universeIndex : Nat → Nat → Nat → Int) (itf : DMXInterface)
    (net subnet uni : Nat) (b : Bool) (hwf : WellFormed itf) :
    WellFormed (getUniverse universeIndex itf net subnet uni b).2 := by
  cases hk : itf.universeIdMap (universeIndex net subnet uni) with
  | some p => rw [getUniverse_of_known b hk]; exact hwf
  | none =>
    cases b with
    | false => rw [getUniverse_of_unknown hk]; exact hwf
    | true =>
      rw [getUniverse_create hk]
      intro k p h
      simp only [Function.update_apply] at h
      simp only [List.length_append, List.length_singleton, Function.update_apply]
      by_cases hkk : k = universeIndex net subnet uni
      · rw [if_pos hkk] at h
        have hp : p = itf.universes.length := by simpa using h.symm
        subst hp
        refine ⟨by omega, ?_⟩
        intro k2 h2
        by_cases hk2 : k2 = universeIndex net subnet uni
        · rw [hk2, hkk]
        · rw [if_neg hk2] at h2
          have := (hwf k2 _ h2).1
          omega
      · rw [if_neg hkk] at h
        have hw := hwf k p h
        refine ⟨by omega, ?_⟩
        intro k2 h2
        by_cases hk2 : k2 = universeIndex net subnet uni
        · rw [if_pos hk2] at h2
          have hp : p = itf.universes.length := by simpa using h2.symm
          omega
        · rw [if_neg hk2] at h2
          exact hw.2 k2 h2

/-- The universe a triple resolves to before a write: the registered one, or the fresh
universe that the write creates. -/
theorem setDMXValue_spec (universeIndex : Nat → Nat → Nat → Int) (itf : DMXInterface)
    (net subnet uni startChannel : Nat) (values : List Nat)
    (hwf : WellFormed itf) (hstart : startChannel ≠ 0) :
    ∃ p,
      (getUniverse universeIndex itf net subnet uni true).1 = some p ∧
      (setDMXValue universeIndex itf net subnet uni startChannel values).universeIdMap
          (universeIndex net subnet uni) = some p ∧
      (setDMXValue universeIndex itf net subnet uni startChannel values).universes[p]?
        = some (((universeAt universeIndex itf net subnet uni).getD
            (DMXUniverse.create net subnet uni)).setChannels (startChannel - 1) values) ∧
      (setDMXValue universeIndex itf net subnet uni startChannel values).universesToSend
        = (if p ∈ itf.universesToSend then itf.universesToSend
            else itf.universesToSend ++ [p]) ∧
      (setDMXValue universeIndex itf net subnet uni startChannel values).deviceAttached
        = itf.deviceAttached ∧
      (setDMXValue universeIndex itf net subnet uni startChannel values).sendOnChangeOnly
        = itf.sendOnChangeOnly ∧
      WellFormed (setDMXValue universeIndex itf net subnet uni startChannel values) := by
  cases hk : itf.universeIdMap (universeIndex net subnet uni) with
  | some p =>
    have hp := (hwf _ p hk).1
    have hu : itf.universes[p]? = some itf.universes[p] := List.getElem?_eq_getElem hp
    have hat : universeAt universeIndex itf net subnet uni = some itf.universes[p] := by
      simp [universeAt, getUniverse_of_known false hk, hu]
    have hset : setDMXValue universeIndex itf net subnet uni startChannel values
        = { itf with
            universes := itf.universes.set p
              (itf.universes[p].setChannels (startChannel - 1) values)
            universesToSend :=
              if p ∈ itf.universesToSend then itf.universesToSend
              else itf.universesToSend ++ [p] } := by
      simp [setDMXValue, hstart, getUniverse_of_known true hk, hu]
    refine ⟨p, by rw [getUniverse_of_known true hk], ?_⟩
    rw [hset, hat]
    refine ⟨hk, ?_, rfl, rfl, rfl, ?_⟩
    · simp [hp]
    · intro k q h
      have hw := hwf k q h
      exact ⟨by simpa using hw.1, hw.2⟩
  | none =>
    have hat : universeAt universeIndex itf net subnet uni = none := by
      simp [universeAt, getUniverse_of_unknown hk]
    have hset : setDMXValue universeIndex itf net subnet uni startChannel values
        = { itf with
            universes := (itf.universes ++ [DMXUniverse.create net subnet uni]).set
              itf.universes.length
              ((DMXUniverse.create net subnet uni).setChannels (startChannel - 1) values)
            universeIdMap :=
              Function.update itf.universeIdMap (universeIndex net subnet uni)
                (some itf.universes.length)
            universesToSend :=
              if itf.universes.length ∈ itf.universesToSend then itf.universesToSend
              else itf.universesToSend ++ [itf.universes.length] } := by
      simp [setDMXValue, hstart, getUniverse_create hk]
    have hwf2 := wellFormed_getUniverse universeIndex itf net subnet uni true hwf
    rw [getUniverse_create hk] at hwf2
    refine ⟨itf.universes.length, by rw [getUniverse_create hk], ?_⟩
    rw [hset, hat]
    refine ⟨by simp, ?_, rfl, rfl, rfl, ?_⟩
    · simp
    · intro k q h
      have hw := hwf2 k q h
      exact ⟨by simpa using hw.1, hw.2⟩

end DMXInterface

namespace DMXInterface

theorem universeAt_of_known {universeIndex : Nat → Nat → Nat → Int} {itf : DMXInterface}
    {net subnet uni p : Nat} (h : itf.universeIdMap (universeIndex net subnet uni) = some p) :
    universeAt universeIndex itf net subnet uni = itf.universes[p]? := by
  simp [universeAt, getUniverse_of_known false h]

theorem universeAt_eq_some (universeIndex : Nat → Nat → Nat → Int) (itf : DMXInterface)
    (net subnet uni p : Nat) (x : DMXUniverse)
    (h : itf.universeIdMap (universeIndex net subnet uni) = some p)
    (hx : itf.universes[p]? = some x) :
    universeAt universeIndex itf net subnet uni = some x := by
  rw [universeAt_of_known h, hx]

theorem runTick_single (universeIndex : Nat → Nat → Nat → Int) (itf : DMXInterface)
    (w : DMXWrite) (hdev : itf.deviceAttached = true) (hchg : itf.sendOnChangeOnly = true)
    (hpend : itf.universesToSend = []) (hwf : WellFormed itf) (hstart : w.startChannel ≠ 0) :
    ∃ u,
      (runTick universeIndex itf [[w]]).1.deviceAttached = true ∧
      (runTick universeIndex itf [[w]]).1.sendOnChangeOnly = true ∧
      (runTick universeIndex itf [[w]]).1.universesToSend = [] ∧
      WellFormed (runTick universeIndex itf [[w]]).1 ∧
      universeAt universeIndex (runTick universeIndex itf [[w]]).1 w.net w.subnet w.uni = some u ∧
      u.isDirty = false ∧
      u.values = (((universeAt universeIndex itf w.net w.subnet w.uni).getD
          (DMXUniverse.create w.net w.subnet w.uni)).setChannels (w.startChannel - 1) w.values).values ∧
      (runTick universeIndex itf [[w]]).2.length
        = if ((universeAt universeIndex itf w.net w.subnet w.uni).getD
              (DMXUniverse.create w.net w.subnet w.uni)).isDirty
            || ((universeAt universeIndex itf w.net w.subnet w.uni).getD
              (DMXUniverse.create w.net w.subnet w.uni)).changedBy (w.startChannel - 1) w.values
          then 1 else 0 := by
  obtain ⟨p, -, hmap, huni, hpend1, hdev1, hchg1, hwf1⟩ :=
    setDMXValue_spec universeIndex itf w.net w.subnet w.uni w.startChannel w.values hwf hstart
  have hrun : runTick universeIndex itf [[w]]
      = sendPendingUniverses
          (setDMXValue universeIndex itf w.net w.subnet w.uni w.startChannel w.values) := by
    simp [runTick, hdev, sendValuesForObjectInternal]
  rw [hrun]
  rw [hpend] at hpend1
  rw [hdev] at hdev1
  rw [hchg] at hchg1
  simp only [List.not_mem_nil, if_false, List.nil_append] at hpend1
  generalize setDMXValue universeIndex itf w.net w.subnet w.uni w.startChannel w.values = itf1
    at hmap huni hpend1 hdev1 hchg1 hwf1
  generalize hb : (universeAt universeIndex itf w.net w.subnet w.uni).getD
      (DMXUniverse.create w.net w.subnet w.uni) = before at huni
  have hdirty := DMXUniverse.setChannels_isDirty before (w.startChannel - 1) w.values
  generalize before.setChannels (w.startChannel - 1) w.values = x at huni hdirty
  have hp : p < itf1.universes.length := by
    rcases List.getElem?_eq_some.mp huni with ⟨h, -⟩
    exact h
  refine ⟨x.snapshotForSend.2.2, ?_⟩
  by_cases hx : x.isDirty = true
  · have hs : sendPendingUniverses itf1
        = ({ itf1 with universes := itf1.universes.set p x.snapshotForSend.2.2
                       universesToSend := [] },
            [{ ptr := p, buffer := x.snapshotForSend.1 }]) := by
      simp [sendPendingUniverses, hpend1, sendUniverse, huni, hchg1, DMXUniverse.snapshotForSend, hx]
    rw [hs, ← hdirty, hx]
    refine ⟨hdev1, hchg1, rfl, ?_, ?_, rfl, rfl, rfl⟩
    · intro k q h
      have hw := hwf1 k q h
      exact ⟨by simpa using hw.1, hw.2⟩
    · exact universeAt_eq_some _ _ _ _ _ p _ hmap (by simp [hp])
  · have hx2 : x.isDirty = false := by simpa using hx
    have hs : sendPendingUniverses itf1
        = ({ itf1 with universes := itf1.universes.set p x.snapshotForSend.2.2
                       universesToSend := [] }, []) := by
      simp [sendPendingUniverses, hpend1, sendUniverse, huni, hchg1, DMXUniverse.snapshotForSend, hx2]
    rw [hs, ← hdirty, hx2]
    refine ⟨hdev1, hchg1, rfl, ?_, ?_, rfl, rfl, rfl⟩
    · intro k q h
      have hw := hwf1 k q h
      exact ⟨by simpa using hw.1, hw.2⟩
    · exact universeAt_eq_some _ _ _ _ _ p _ hmap (by simp [hp])

end DMXInterface

namespace DMXUniverse

theorem changedBy_eq_false_iff (u : DMXUniverse) (i : Nat) (vs : List Nat) :
    u.changedBy i vs = false
      ↔ ∀ j, j < vs.length → i + j < DMX_NUM_CHANNELS → u.values (i + j) = vs.getD j 0 % 256 := by
  induction vs generalizing i with
  | nil => simp [changedBy]
  | cons v vs ih =>
    simp only [changedBy, Bool.or_eq_false_iff, ih (i + 1)]
    constructor
    · rintro ⟨h0, hrest⟩ j hj hlt
      cases j with
      | zero =>
        have : decide (i < DMX_NUM_CHANNELS) = true := by simpa using hlt
        simpa [this] using h0
      | succ j =>
        have := hrest j (by simpa using hj) (by omega)
        rw [show i + (j + 1) = i + 1 + j by omega]
        simpa using this
    · intro h
      constructor
      · by_cases hi : i < DMX_NUM_CHANNELS
        · have := h 0 (by simp) (by simpa using hi)
          simpa [hi] using this
        · simp [hi]
      · intro j hj hlt
        have := h (j + 1) (by simpa using hj) (by omega)
        rw [show i + (j + 1) = i + 1 + j by omega] at this
        simpa using this

theorem changedBy_after_write (u x : DMXUniverse) (i : Nat) (vs : List Nat)
    (hx : x.values = (u.setChannels i vs).values) : x.changedBy i vs = false := by
  rw [changedBy_eq_false_iff]
  intro j hj hlt
  rw [hx, setChannels_values]
  have h : i ≤ i + j ∧ i + j < i + vs.length ∧ i + j < DMX_NUM_CHANNELS := by omega
  rw [if_pos h, Nat.add_sub_cancel_left]

theorem changedBy_of_ne (u : DMXUniverse) (i : Nat) (vs ws : List Nat)
    (hu : u.changedBy i vs = false) (hlen : vs.length = ws.length)
    (hfit : i + vs.length ≤ DMX_NUM_CHANNELS)
    (hvs : ∀ v ∈ vs, v < 256) (hws : ∀ v ∈ ws, v < 256) (hne : vs ≠ ws) :
    u.changedBy i ws = true := by
  by_contra hc
  have hc2 : u.changedBy i ws = false := by simpa using hc
  rw [changedBy_eq_false_iff] at hu hc2
  apply hne
  apply List.ext_getElem hlen
  intro j h1 h2
  have e1 := hu j h1 (by omega)
  have e2 := hc2 j h2 (by omega)
  rw [e1] at e2
  have b1 : vs[j] < 256 := hvs _ (List.getElem_mem _)
  have b2 : ws[j] < 256 := hws _ (List.getElem_mem _)
  have g1 : vs.getD j 0 = vs[j] := by simp [List.getD, List.getElem?_eq_getElem h1]
  have g2 : ws.getD j 0 = ws[j] := by simp [List.getD, List.getElem?_eq_getElem h2]
  rw [g1, g2, Nat.mod_eq_of_lt b1, Nat.mod_eq_of_lt b2] at e2
  exact e2

end DMXUniverse

namespace DMXInterface

theorem settled_after_tick (universeIndex : Nat → Nat → Nat → Int) (itf : DMXInterface)
    (w : DMXWrite) (hdev : itf.deviceAttached = true) (hchg : itf.sendOnChangeOnly = true)
    (hpend : itf.universesToSend = []) (hwf : WellFormed itf) (hstart : w.startChannel ≠ 0) :
    Settled universeIndex (runTick universeIndex itf [[w]]).1 w := by
  obtain ⟨u, h1, h2, h3, h4, h5, h6, h7, -⟩ :=
    runTick_single universeIndex itf w hdev hchg hpend hwf hstart
  exact ⟨h1, h2, h3, h4, u, h5, h6, DMXUniverse.changedBy_after_write _ u _ _ h7⟩

theorem tick_of_settled (universeIndex : Nat → Nat → Nat → Int) (itf : DMXInterface)
    (w : DMXWrite) (hs : Settled universeIndex itf w) (hstart : w.startChannel ≠ 0) :
    (runTick universeIndex itf [[w]]).2 = [] ∧
      Settled universeIndex (runTick universeIndex itf [[w]]).1 w := by
  obtain ⟨hdev, hchg, hpend, hwf, u, hu, hclean, hsame⟩ := hs
  refine ⟨?_, settled_after_tick universeIndex itf w hdev hchg hpend hwf hstart⟩
  obtain ⟨x, -, -, -, -, -, -, -, hlen⟩ :=
    runTick_single universeIndex itf w hdev hchg hpend hwf hstart
  rw [hu] at hlen
  simp only [Option.getD_some, hclean, hsame, Bool.or_self] at hlen
  exact List.length_eq_zero.mp (by simpa using hlen)

theorem tick_of_settled_changed (universeIndex : Nat → Nat → Nat → Int) (itf : DMXInterface)
    (w : DMXWrite) (ws : List Nat) (hs : Settled universeIndex itf w)
    (hstart : w.startChannel ≠ 0) (hlen : w.values.length = ws.length)
    (hfit : w.startChannel + w.values.length ≤ DMX_NUM_CHANNELS + 1)
    (hvs : ∀ v ∈ w.values, v < 256) (hws : ∀ v ∈ ws, v < 256) (hne : w.values ≠ ws) :
    (runTick universeIndex itf [[{ w with values := ws }]]).2.length = 1 ∧
      Settled universeIndex (runTick universeIndex itf [[{ w with values := ws }]]).1
        { w with values := ws } := by
  obtain ⟨hdev, hchg, hpend, hwf, u, hu, hclean, hsame⟩ := hs
  refine ⟨?_, settled_after_tick universeIndex itf { w with values := ws } hdev hchg hpend hwf hstart⟩
  obtain ⟨x, -, -, -, -, -, -, -, hl⟩ :=
    runTick_single universeIndex itf { w with values := ws } hdev hchg hpend hwf hstart
  simp only [hu, Option.getD_some, hclean, Bool.false_or] at hl
  rw [DMXUniverse.changedBy_of_ne u _ w.values ws hsame hlen (by omega) hvs hws hne] at hl
  simpa using hl

theorem run_replicate_of_settled (universeIndex : Nat → Nat → Nat → Int) (w : DMXWrite)
    (hstart : w.startChannel ≠ 0) (n : Nat) (itf : DMXInterface)
    (hs : Settled universeIndex itf w) :
    run universeIndex itf (List.replicate n [[w]]) = List.replicate n [] := by
  induction n generalizing itf with
  | zero => rfl
  | succ n ih =>
    have h := tick_of_settled universeIndex itf w hs hstart
    rw [List.replicate_succ, run, h.1, ih _ h.2, List.replicate_succ]

theorem run_replicate_of_start_zero (universeIndex : Nat → Nat → Nat → Int) (w : DMXWrite)
    (hstart : w.startChannel = 0) (n : Nat) :
    run universeIndex (empty true true) (List.replicate n [[w]]) = List.replicate n [] := by
  have ht : runTick universeIndex (empty true true) [[w]] = (empty true true, []) := by
    simp [runTick, empty, sendValuesForObjectInternal, setDMXValue, hstart, sendPendingUniverses]
  induction n with
  | zero => rfl
  | succ n ih => rw [List.replicate_succ, run, ht, ih, List.replicate_succ]

end DMXInterface

namespace DMXInterface

theorem sendUniverse_sendOnChangeOnly (st : DMXInterface × List Transmission) (p : Nat) :
    (sendUniverse st p).1.sendOnChangeOnly = st.1.sendOnChangeOnly := by
  unfold sendUniverse
  cases st.1.universes[p]? with
  | none => rfl
  | some u => simp only []; split_ifs <;> rfl

theorem sendUniverse_dirtyAt_ne (st : DMXInterface × List Transmission) (p q : Nat)
    (h : q ≠ p) : dirtyAt (sendUniverse st p).1 q = dirtyAt st.1 q := by
  unfold sendUniverse
  cases st.1.universes[p]? with
  | none => rfl
  | some u =>
    simp only []
    split_ifs <;> simp [dirtyAt, List.getElem?_set_ne (Ne.symm h)]

theorem sendUniverse_ptrs (st : DMXInterface × List Transmission) (p : Nat)
    (h : st.1.sendOnChangeOnly = true) :
    (sendUniverse st p).2.map (fun t => t.ptr)
      = st.2.map (fun t => t.ptr) ++ (if dirtyAt st.1 p then [p] else []) := by
  unfold sendUniverse dirtyAt
  cases st.1.universes[p]? with
  | none => simp
  | some u =>
    cases hd : u.isDirty <;> simp [h, DMXUniverse.snapshotForSend, hd]

theorem foldl_sendUniverse_ptrs (ps : List Nat) (st : DMXInterface × List Transmission)
    (hnd : ps.Nodup) (h : st.1.sendOnChangeOnly = true) :
    (ps.foldl sendUniverse st).2.map (fun t => t.ptr)
      = st.2.map (fun t => t.ptr) ++ ps.filter (dirtyAt st.1) := by
  induction ps generalizing st with
  | nil => simp
  | cons p ps ih =>
    rw [List.nodup_cons] at hnd
    rw [List.foldl_cons, ih _ hnd.2 (by rw [sendUniverse_sendOnChangeOnly]; exact h),
      sendUniverse_ptrs st p h]
    have hf : ps.filter (dirtyAt (sendUniverse st p).1) = ps.filter (dirtyAt st.1) := by
      apply List.filter_congr
      intro q hq
      exact sendUniverse_dirtyAt_ne st p q (fun e => hnd.1 (e ▸ hq))
    rw [hf, List.filter_cons]
    cases dirtyAt st.1 p <;> simp

theorem sendPendingUniverses_ptrs (itf : DMXInterface) (h : itf.sendOnChangeOnly = true)
    (hnd : itf.universesToSend.Nodup) :
    (sendPendingUniverses itf).2.map (fun t => t.ptr)
      = itf.universesToSend.filter (dirtyAt itf) := by
  unfold sendPendingUniverses
  simpa using foldl_sendUniverse_ptrs itf.universesToSend (itf, []) hnd h

end DMXInterface

namespace DMXInterface

theorem run_replicate_append_of_settled (universeIndex : Nat → Nat → Nat → Int) (w : DMXWrite)
    (hstart : w.startChannel ≠ 0) (rest : List (List (List DMXWrite))) (n : Nat)
    (itf : DMXInterface) (hs : Settled universeIndex itf w) :
    ∃ itf2, Settled universeIndex itf2 w ∧
      run universeIndex itf (List.replicate n [[w]] ++ rest)
        = List.replicate n [] ++ run universeIndex itf2 rest := by
  induction n generalizing itf with
  | zero => exact ⟨itf, hs, rfl⟩
  | succ n ih =>
    have h := tick_of_settled universeIndex itf w hs hstart
    obtain ⟨itf2, hs2, hrun⟩ := ih _ h.2
    refine ⟨itf2, hs2, ?_⟩
    rw [List.replicate_succ, List.cons_append, run, h.1, hrun, List.replicate_succ,
      List.cons_append]

theorem run_change_scenario (universeIndex : Nat → Nat → Nat → Int) (w : DMXWrite)
    (ws : List Nat) (hstart : 1 ≤ w.startChannel)
    (hfit : w.startChannel + w.values.length ≤ DMX_NUM_CHANNELS + 1)
    (hlen : w.values.length = ws.length)
    (hvs : ∀ v ∈ w.values, v < 256) (hws : ∀ v ∈ ws, v < 256) (hne : w.values ≠ ws)
    (n m : Nat) :
    ((run universeIndex (empty true true)
        (List.replicate (n + 1) [[w]]
          ++ List.replicate (m + 1) [[{ w with values := ws }]])).tail.map List.length)
      = List.replicate n 0 ++ 1 :: List.replicate m 0 := by
  have hstart2 : w.startChannel ≠ 0 := by omega
  have hs1 := settled_after_tick universeIndex (empty true true) w rfl rfl rfl
    (wellFormed_empty _ _) hstart2
  obtain ⟨itf2, hs2, hrun⟩ := run_replicate_append_of_settled universeIndex w hstart2
    (List.replicate (m + 1) [[{ w with values := ws }]]) n _ hs1
  have hchg := tick_of_settled_changed universeIndex itf2 w ws hs2 hstart2 hlen hfit hvs hws hne
  have hrest := run_replicate_of_settled universeIndex { w with values := ws } hstart2 m _ hchg.2
  rw [List.replicate_succ, List.cons_append, run, List.tail_cons, hrun, List.replicate_succ,
    run, hrest]
  simp [hchg.1]

end DMXInterface

/-! ## Claims on the value resolution engine and on filters -/

/-- C1: the resolution blend returns exactly the current value at weight 0 and exactly
the target value at weight 1, and blending any target values with weight 0 leaves the
current values unchanged (with weight 1 every touched parameter takes its target). -/
theorem C1_blend_endpoints :
    (∀ current target : ℚ, blend current target 0 = current ∧ blend current target 1 = target)
    ∧ (∀ (current : Values) (targets : TargetValues), blendInto current targets 0 = current)
    ∧ (∀ (current : Values) (targets : TargetValues) (p : Parameter),
        blendInto current targets 1 p = (targets p).getD (current p)) :=
  ⟨fun current target => ⟨by simp [blend], by simp [blend]⟩, blendInto_weight_zero,
    blendInto_weight_one⟩

/-- C2: the resolved value of a parameter is the left-to-right fold of the blend over
the effect stack in declaration order, starting from the base value, each effect being
blended with its weight as committed by step 3 (clamped to [0,1]); for weights within
[0,1] this is the fold of `c*(1-w) + t*w` over the weights as given; and for base 0 and
the stack [(10, 1), (20, 1/2)] the resolved value is 15. -/
theorem C2_resolve_is_left_fold :
    (∀ (s : EvaluationSession) (o : Object) (c : ObjectComponent) (time : ℚ)
        (param : Parameter) (effects : List (ℚ × ℚ)) (base : Values),
        resolve s o c time base (overrideStack param effects) param
          = effects.foldl (fun cur tw => blend cur tw.1 (clampWeight tw.2)) (base param))
    ∧ (∀ (s : EvaluationSession) (o : Object) (c : ObjectComponent) (time : ℚ)
        (param : Parameter) (effects : List (ℚ × ℚ)) (base : Values),
        (∀ tw ∈ effects, 0 ≤ tw.2 ∧ tw.2 ≤ 1) →
        resolve s o c time base (overrideStack param effects) param
          = effects.foldl (fun cur tw => cur * (1 - tw.2) + tw.1 * tw.2) (base param))
    ∧ (∀ (s : EvaluationSession) (o : Object) (c : ObjectComponent) (time : ℚ)
        (param : Parameter),
        resolve s o c time (fun _ => 0) (overrideStack param [(10, 1), (20, 1 / 2)]) param
          = 15) := by
  refine ⟨resolve_overrideStack, ?_, ?_⟩
  · intro s o c time param effects base h
    rw [resolve_overrideStack, foldl_blend_clamp_eq effects h]
    rfl
  · intro s o c time param
    rw [resolve_overrideStack, foldl_blend_clamp_eq _ (by
      intro tw htw
      simp only [List.mem_cons, List.mem_singleton, List.not_mem_nil, or_false] at htw
      rcases htw with rfl | rfl <;> norm_num)]
    norm_num [blend]

/-- Witness for C2: the stack [(10, 1), (20, 1/2)] has its weights in [0,1], and its
resolved value over base 0 is the fold of the blend over the weights as given. -/
theorem C2_resolve_is_left_fold_witness :
    (∀ tw ∈ [((10 : ℚ), (1 : ℚ)), (20, 1 / 2)], 0 ≤ tw.2 ∧ tw.2 ≤ 1)
    ∧ resolve { objects := [0], rand := fun _ => 0 } 0 0 (-1) (fun _ => 0)
          (overrideStack 3 [(10, 1), (20, 1 / 2)]) 3
        = [((10 : ℚ), (1 : ℚ)), (20, 1 / 2)].foldl
            (fun cur tw => cur * (1 - tw.2) + tw.1 * tw.2) ((fun _ => (0 : ℚ)) 3) :=
  have h : ∀ tw ∈ [((10 : ℚ), (1 : ℚ)), (20, 1 / 2)], 0 ≤ tw.2 ∧ tw.2 ≤ 1 := by
    intro tw htw
    simp only [List.mem_cons, List.mem_singleton, List.not_mem_nil, or_false] at htw
    rcases htw with rfl | rfl <;> norm_num
  ⟨h, C2_resolve_is_left_fold.2.1 { objects := [0], rand := fun _ => 0 } 0 0 (-1) 3
    [(10, 1), (20, 1 / 2)] (fun _ => 0) h⟩

/-- C3: whatever weight the filter produced, the committed blend uses a weight within
[0,1], so every blended parameter lies between its current value and its target
(inclusive) and every untouched parameter keeps its current value. -/
theorem C3_blend_never_overshoots (current : Values) (targets : TargetValues) (weight : ℚ)
    (p : Parameter) :
    0 ≤ clampWeight weight ∧ clampWeight weight ≤ 1 ∧
    (∀ t, targets p = some t →
        blendInto current targets weight p = blend (current p) t (clampWeight weight) ∧
        min (current p) t ≤ blendInto current targets weight p ∧
        blendInto current targets weight p ≤ max (current p) t) ∧
    (targets p = none → blendInto current targets weight p = current p) := by
  refine ⟨clampWeight_nonneg _, clampWeight_le_one _, ?_, ?_⟩
  · intro t ht
    have hb : blendInto current targets weight p = blend (current p) t (clampWeight weight) := by
      simp [blendInto, ht]
    rw [hb]
    exact ⟨rfl, blend_between_of_weight (clampWeight_nonneg _) (clampWeight_le_one _)⟩
  · intro hn
    simp [blendInto, hn]

/-- Witness for C3: a filter weight of 3 on current value 2 and target 8 commits the
target itself, not the overshoot 2*(1-3) + 8*3 = 20. -/
theorem C3_blend_never_overshoots_witness :
    (fun p : Parameter => if p = 0 then some (8 : ℚ) else none) 0 = some 8 ∧
    blendInto (fun _ => 2) (fun p => if p = 0 then some 8 else none) 3 0 = 8 := by
  have h := (C3_blend_never_overshoots (fun _ => 2) (fun p => if p = 0 then some 8 else none)
    3 0).2.2.1 8 (by simp)
  refine ⟨by simp, ?_⟩
  rw [h.1]
  norm_num [blend, clampWeight]

/-- C7: in RANDOMIZED id mode, within one session whose registered objects are distinct,
the ids returned for the k matching objects are a permutation of 0, ..., k-1 (no
duplicates, every value hit), and the id of a matching object is the same at every
evaluation of the session, whatever the component. -/
theorem C7_randomized_ids (f : Filter) (s : EvaluationSession) (c : ObjectComponent)
    (hmode : f.idMode = IDMode.RANDOMIZED) (hobjs : s.objects.Nodup) :
    ((f.matchingObjects s).map (fun o => (f.getFilteredResultForComponent s o c).id)).Perm
        ((List.range (f.matchingObjects s).length).map (fun i : Nat => (i : Int)))
    ∧ ((f.matchingObjects s).map (fun o => (f.getFilteredResultForComponent s o c).id)).Nodup
    ∧ (∀ i, i < (f.matchingObjects s).length →
        ∃ o ∈ f.matchingObjects s, (f.getFilteredResultForComponent s o c).id = (i : Int))
    ∧ (∀ o ∈ f.matchingObjects s, ∀ c2,
        (f.getFilteredResultForComponent s o c2).id
          = (f.getFilteredResultForComponent s o c).id) := by
  have hperm : ((f.matchingObjects s).map
      (fun o => (f.getFilteredResultForComponent s o c).id)).Perm
        ((List.range (f.matchingObjects s).length).map (fun i : Nat => (i : Int))) := by
    rw [randomized_ids_eq f s c hmode hobjs]
    exact (randomizedOrder_perm _ _).map _
  refine ⟨hperm, ?_, ?_, ?_⟩
  · refine (List.Perm.nodup_iff hperm).mpr ?_
    exact (List.nodup_range _).map (fun a b h => by simpa using h)
  · intro i hi
    have hmem : (i : Int) ∈ (f.matchingObjects s).map
        (fun o => (f.getFilteredResultForComponent s o c).id) :=
      hperm.symm.subset (List.mem_map.mpr ⟨i, List.mem_range.mpr hi, rfl⟩)
    obtain ⟨o, ho, hid⟩ := List.mem_map.mp hmem
    exact ⟨o, ho, hid⟩
  · intro o ho c2
    simp [Filter.getFilteredResultForComponent, Filter.remapId, ho, hmode]

/-- Witness for C7: five registered objects, of which the filter matches the three odd
ones, in a session whose draws are 7, 8, 9, ...: the ids of 1, 3, 5 are 2, 1, 0. -/
theorem C7_randomized_ids_witness :
    (IDMode.RANDOMIZED = IDMode.RANDOMIZED) ∧ [1, 2, 3, 4, 5].Nodup ∧
    ([1, 3, 5].map (fun o =>
      (Filter.getFilteredResultForComponent
        { idMode := IDMode.RANDOMIZED, invert := false, excludeFromScenes := false,
          isAffectingObject := fun o => o % 2 = 1,
          getFilteredResultForComponentInternal := fun _ _ => {} }
        { objects := [1, 2, 3, 4, 5], rand := fun i => i + 7 } o 0).id)) = [2, 1, 0] ∧
    ([1, 3, 5].map (fun o =>
      (Filter.getFilteredResultForComponent
        { idMode := IDMode.RANDOMIZED, invert := false, excludeFromScenes := false,
          isAffectingObject := fun o => o % 2 = 1,
          getFilteredResultForComponentInternal := fun _ _ => {} }
        { objects := [1, 2, 3, 4, 5], rand := fun i => i + 7 } o 0).id)).Perm
      [0, 1, 2] :=
  ⟨rfl, by decide, by decide,
    (C7_randomized_ids
      { idMode := IDMode.RANDOMIZED, invert := false, excludeFromScenes := false,
        isAffectingObject := fun o => o % 2 = 1,
        getFilteredResultForComponentInternal := fun _ _ => {} }
      { objects := [1, 2, 3, 4, 5], rand := fun i => i + 7 } 0 rfl (by decide)).1⟩

/-- C9: a default-constructed `FilterResult` has id -1 and weight 1; it is the result
used for an effect with no filter, and such an effect is blended with weight 1: every
parameter it touches takes the target value, the others keep their current value. -/
theorem C9_default_filter_result :
    ({} : FilterResult).id = -1 ∧ ({} : FilterResult).weight = 1 ∧
    ∀ (proc : Object → ObjectComponent → Values → Int → ℚ → TargetValues)
      (s : EvaluationSession) (o : Object) (c : ObjectComponent) (time : ℚ) (current : Values),
      filterResultFor s { filter := none, processComponentInternal := proc } o c = some {} ∧
      applyEffect s o c time current { filter := none, processComponentInternal := proc }
        = blendInto current (proc o c current (-1) time) 1 ∧
      ∀ p, applyEffect s o c time current { filter := none, processComponentInternal := proc } p
        = (proc o c current (-1) time p).getD (current p) := by
  refine ⟨rfl, rfl, ?_⟩
  intro proc s o c time current
  have h : applyEffect s o c time current { filter := none, processComponentInternal := proc }
      = blendInto current (proc o c current (-1) time) 1 := rfl
  refine ⟨rfl, h, ?_⟩
  intro p
  rw [h]
  exact blendInto_weight_one current _ p

/-! ## Facts and claims on the DMX output -/

open DMXInterface

/-- A write followed by a snapshot, in the model of the universe: for a consistent
interface, a start channel from 1 on and a list of bytes that fits within channel 512,
the snapshot of the addressed universe holds the written values from buffer index
`startChannel - 1` on; its dirty flag is the one the universe had before, or-ed with
whether a written byte differs from the stored one; a second snapshot is clean. -/
theorem setDMXValue_then_snapshot (universeIndex : Nat → Nat → Nat → Int)
    (itf : DMXInterface) (net subnet uni startChannel : Nat) (values : List Nat)
    (hwf : WellFormed itf) (hstart : 1 ≤ startChannel)
    (hfit : startChannel + values.length ≤ DMX_NUM_CHANNELS + 1)
    (hbytes : ∀ v ∈ values, v < 256) :
    ∃ after,
      universeAt universeIndex
        (setDMXValue universeIndex itf net subnet uni startChannel values) net subnet uni
          = some after ∧
      (∀ j (hj : j < values.length),
        after.snapshotForSend.1 (startChannel - 1 + j) = values[j]) ∧
      after.snapshotForSend.2.1
        = (((universeAt universeIndex itf net subnet uni).getD
              (DMXUniverse.create net subnet uni)).isDirty
            || ((universeAt universeIndex itf net subnet uni).getD
              (DMXUniverse.create net subnet uni)).changedBy (startChannel - 1) values) ∧
      after.snapshotForSend.2.2.snapshotForSend.2.1 = false := by
  obtain ⟨p, -, hmap, huni, -⟩ :=
    setDMXValue_spec universeIndex itf net subnet uni startChannel values hwf (by omega)
  refine ⟨_, universeAt_eq_some _ _ _ _ _ p _ hmap huni, ?_, ?_, rfl⟩
  · intro j hj
    show (DMXUniverse.setChannels _ _ _).values _ = _
    rw [DMXUniverse.setChannels_values]
    have h : startChannel - 1 ≤ startChannel - 1 + j
        ∧ startChannel - 1 + j < startChannel - 1 + values.length
        ∧ startChannel - 1 + j < DMX_NUM_CHANNELS := by omega
    rw [if_pos h, Nat.add_sub_cancel_left]
    have g : values.getD j 0 = values[j] := by simp [List.getD, List.getElem?_eq_getElem hj]
    rw [g, Nat.mod_eq_of_lt (hbytes _ (List.getElem_mem _))]
  · exact DMXUniverse.setChannels_isDirty _ _ _

/-- In the model of the universe, writing again the byte that a tick has just sent
leaves the snapshot clean: after a tick has sent 5 on channel 1 of universe (0, 0, 0),
writing [5] at channel 1 gives the byte 5 and a dirty flag that is false. -/
theorem setDMXValue_rewrite_not_dirty :
    (universeAt pairedUniverseIndex
        (setDMXValue pairedUniverseIndex
          (runTick pairedUniverseIndex (DMXInterface.empty true false)
            [[{ net := 0, subnet := 0, uni := 0, startChannel := 1, values := [5] }]]).1
          0 0 0 1 [5]) 0 0 0).map
      (fun u => (u.snapshotForSend.1 0, u.snapshotForSend.2.1)) = some (5, false) := by
  decide

/-- The universe registry, in the model of `getUniverse` with the key encoding as a
parameter: a lookup with creation called twice with the same triple returns the same
instance and creates nothing the second time; on a consistent interface two triples
resolve to the same instance exactly when their int keys coincide; and without creation
an unknown key yields no universe and leaves the interface as it is. -/
theorem getUniverse_instances (universeIndex : Nat → Nat → Nat → Int) (itf : DMXInterface)
    (hwf : WellFormed itf) (n1 s1 u1 n2 s2 u2 : Nat) :
    ((getUniverse universeIndex itf n1 s1 u1 true).1.isSome = true ∧
      getUniverse universeIndex (getUniverse universeIndex itf n1 s1 u1 true).2 n1 s1 u1 true
        = getUniverse universeIndex itf n1 s1 u1 true) ∧
    ((getUniverse universeIndex
          (getUniverse universeIndex (getUniverse universeIndex itf n1 s1 u1 true).2
            n2 s2 u2 true).2 n1 s1 u1 true).1
        = (getUniverse universeIndex (getUniverse universeIndex itf n1 s1 u1 true).2
            n2 s2 u2 true).1
      ↔ universeIndex n1 s1 u1 = universeIndex n2 s2 u2) ∧
    (itf.universeIdMap (universeIndex n1 s1 u1) = none →
      getUniverse universeIndex itf n1 s1 u1 false = (none, itf)) := by
  have hfirst : ∃ p, getUniverse universeIndex itf n1 s1 u1 true
        = (some p, (getUniverse universeIndex itf n1 s1 u1 true).2)
      ∧ (getUniverse universeIndex itf n1 s1 u1 true).2.universeIdMap (universeIndex n1 s1 u1)
        = some p := by
    cases hk : itf.universeIdMap (universeIndex n1 s1 u1) with
    | some p => exact ⟨p, by rw [getUniverse_of_known true hk], by rw [getUniverse_of_known true hk]; exact hk⟩
    | none => exact ⟨itf.universes.length, by rw [getUniverse_create hk], by rw [getUniverse_create hk]; simp⟩
  obtain ⟨p, hp, hmap⟩ := hfirst
  have hwf1 := wellFormed_getUniverse universeIndex itf n1 s1 u1 true hwf
  generalize (getUniverse universeIndex itf n1 s1 u1 true).2 = itf1 at hp hmap hwf1
  refine ⟨⟨by rw [hp]; rfl, ?_⟩, ?_, fun h => getUniverse_of_unknown h⟩
  · rw [hp, getUniverse_of_known true hmap]
  · cases hk : itf1.universeIdMap (universeIndex n2 s2 u2) with
    | some q =>
      rw [getUniverse_of_known true hk, getUniverse_of_known true hmap]
      constructor
      · intro h
        have hpq : p = q := by simpa using h
        subst hpq
        exact (hwf1 _ p hk).2 _ hmap
      · intro h
        rw [h, hk] at hmap
        simpa using hmap.symm
    | none =>
      rw [getUniverse_create hk]
      have hne : universeIndex n1 s1 u1 ≠ universeIndex n2 s2 u2 := by
        intro h
        rw [h, hk] at hmap
        exact Option.noConfusion hmap
      have hmap2 : (Function.update itf1.universeIdMap (universeIndex n2 s2 u2)
          (some itf1.universes.length)) (universeIndex n1 s1 u1) = some p := by
        rw [Function.update_noteq hne]; exact hmap
      rw [getUniverse_of_known true hmap2]
      have hlt := (hwf1 _ p hmap).1
      constructor
      · intro h
        have : p = itf1.universes.length := by simpa using h
        omega
      · intro h
        exact absurd h hne

/-- A counting fact on the model of `getUniverse`: whatever the encoding of a triple as
a 32-bit int key, some two distinct triples of non-negative 32-bit ints get the same
key, and so the same instance. -/
theorem getUniverse_int_key_collision :
    ¬ ∃ universeIndex : Nat → Nat → Nat → Int,
        (∀ n s u, -2147483648 ≤ universeIndex n s u ∧ universeIndex n s u ≤ 2147483647) ∧
        ∀ n1 s1 u1 n2 s2 u2 : Nat,
          n1 < 2147483648 → s1 < 2147483648 → u1 < 2147483648 →
          n2 < 2147483648 → s2 < 2147483648 → u2 < 2147483648 →
          (n1, s1, u1) ≠ (n2, s2, u2) →
          (getUniverse universeIndex
              (getUniverse universeIndex (DMXInterface.empty true true) n1 s1 u1 true).2
              n2 s2 u2 true).1
            ≠ (getUniverse universeIndex (DMXInterface.empty true true) n1 s1 u1 true).1 := by
  rintro ⟨universeIndex, hrange, hdist⟩
  have hkey : ∀ n1 u1 n2 u2 : Nat, n1 < 2147483648 → u1 < 3 → n2 < 2147483648 → u2 < 3 →
      universeIndex n1 0 u1 = universeIndex n2 0 u2 → n1 = n2 ∧ u1 = u2 := by
    intro n1 u1 n2 u2 h1 h2 h3 h4 he
    by_contra hne
    have hd := hdist n1 0 u1 n2 0 u2 h1 (by norm_num) (by omega) h3 (by norm_num) (by omega)
      (by
        intro h
        simp only [Prod.mk.injEq, true_and] at h
        exact hne h)
    apply hd
    have hnone : (DMXInterface.empty true true).universeIdMap (universeIndex n1 0 u1) = none := rfl
    rw [getUniverse_create hnone]
    have hmap : (Function.update (DMXInterface.empty true true).universeIdMap
        (universeIndex n1 0 u1) (some (DMXInterface.empty true true).universes.length))
          (universeIndex n2 0 u2) = some (DMXInterface.empty true true).universes.length := by
      rw [he]; simp
    rw [getUniverse_of_known true hmap]
  let f : Fin 2147483648 × Fin 3 → Fin 4294967296 := fun x =>
    ⟨(universeIndex x.1.val 0 x.2.val + 2147483648).toNat, by
      have h := hrange x.1.val 0 x.2.val
      omega⟩
  have hf : Function.Injective f := by
    intro x y hxy
    have hv : (universeIndex x.1.val 0 x.2.val + 2147483648).toNat
        = (universeIndex y.1.val 0 y.2.val + 2147483648).toNat := congrArg Fin.val hxy
    have hx := hrange x.1.val 0 x.2.val
    have hy := hrange y.1.val 0 y.2.val
    have he : universeIndex x.1.val 0 x.2.val = universeIndex y.1.val 0 y.2.val := by omega
    have := hkey _ _ _ _ x.1.isLt x.2.isLt y.1.isLt y.2.isLt he
    exact Prod.ext (Fin.ext this.1) (Fin.ext this.2)
  have hcard := Fintype.card_le_of_injective f hf
  simp only [Fintype.card_prod, Fintype.card_fin] at hcard
  omega

/-- C6: with `sendOnChangeOnly` set, the universes transmitted at a tick are exactly the
pending universes that are dirty at their snapshot; on a fresh interface with a device,
one object mapped to one universe and an unchanged value over 10 ticks, no tick after
the first transmits; and when the value changes at tick 5 (same run of channels, bytes
that fit) the ticks after the first transmit exactly once, at tick 5. -/
theorem C6_send_on_change_only :
    (∀ itf : DMXInterface, itf.sendOnChangeOnly = true → itf.universesToSend.Nodup →
      (sendPendingUniverses itf).2.map (fun t => t.ptr)
        = itf.universesToSend.filter (dirtyAt itf)) ∧
    (∀ (universeIndex : Nat → Nat → Nat → Int) (w : DMXWrite),
      (run universeIndex (DMXInterface.empty true true) (List.replicate 10 [[w]])).tail
        = List.replicate 9 []) ∧
    (∀ (universeIndex : Nat → Nat → Nat → Int) (w : DMXWrite) (ws : List Nat),
      1 ≤ w.startChannel → w.startChannel + w.values.length ≤ DMX_NUM_CHANNELS + 1 →
      w.values.length = ws.length → (∀ v ∈ w.values, v < 256) → (∀ v ∈ ws, v < 256) →
      w.values ≠ ws →
      (run universeIndex (DMXInterface.empty true true)
        (List.replicate 4 [[w]] ++ List.replicate 6 [[{ w with values := ws }]])).tail.map
          List.length = [0, 0, 0, 1, 0, 0, 0, 0, 0]) := by
  refine ⟨sendPendingUniverses_ptrs, ?_, ?_⟩
  · intro universeIndex w
    by_cases hstart : w.startChannel = 0
    · rw [run_replicate_of_start_zero universeIndex w hstart]
      rfl
    · have hs := settled_after_tick universeIndex (DMXInterface.empty true true) w rfl rfl rfl
        (wellFormed_empty _ _) hstart
      rw [show (10 : Nat) = 9 + 1 from rfl, List.replicate_succ, run, List.tail_cons,
        run_replicate_of_settled universeIndex w hstart 9 _ hs]
  · intro universeIndex w ws hstart hfit hlen hvs hws hne
    exact run_change_scenario universeIndex w ws hstart hfit hlen hvs hws hne 3 5

/-- Witness for C6: the object sends 5 on channel 1 of universe (0, 0, 0) for four ticks
and 9 from tick 5 on. -/
theorem C6_send_on_change_only_witness :
    (DMXInterface.empty true true).sendOnChangeOnly = true ∧
    (1 ≤ 1 ∧ 1 + [5].length ≤ DMX_NUM_CHANNELS + 1 ∧ [5].length = [9].length ∧
      (∀ v ∈ [5], v < 256) ∧ (∀ v ∈ [9], v < 256) ∧ [5] ≠ [9]) ∧
    (run pairedUniverseIndex (DMXInterface.empty true true)
        (List.replicate 4 [[{ net := 0, subnet := 0, uni := 0, startChannel := 1, values := [5] }]]
          ++ List.replicate 6
            [[{ net := 0, subnet := 0, uni := 0, startChannel := 1, values := [9] }]])).tail.map
          List.length = [0, 0, 0, 1, 0, 0, 0, 0, 0] :=
  ⟨rfl, ⟨by decide, by decide, by decide, by decide, by decide, by decide⟩,
    C6_send_on_change_only.2.2 pairedUniverseIndex
      { net := 0, subnet := 0, uni := 0, startChannel := 1, values := [5] } [9]
      (by decide) (by decide) (by decide) (by decide) (by decide) (by decide)⟩

/-! ## Lemmas and claims on quaternions -/

namespace Quaternion

theorem Norm_nonneg (q : Quaternion) : 0 ≤ Norm q := Real.sqrt_nonneg _

theorem Norm_mul_self (q : Quaternion) :
    Norm q * Norm q = q.X * q.X + q.Y * q.Y + q.Z * q.Z + q.W * q.W :=
  Real.mul_self_sqrt (add_nonneg (add_nonneg (add_nonneg (mul_self_nonneg _)
    (mul_self_nonneg _)) (mul_self_nonneg _)) (mul_self_nonneg _))

theorem Norm_eq_one_iff (q : Quaternion) :
    Norm q = 1 ↔ q.X * q.X + q.Y * q.Y + q.Z * q.Z + q.W * q.W = 1 := by
  unfold Norm
  exact Real.sqrt_eq_one

theorem Norm_pos_of_ne_zero {q : Quaternion} (h : Norm q ≠ 0) : 0 < Norm q :=
  lt_of_le_of_ne (Norm_nonneg q) (Ne.symm h)

theorem Norm_divScalar (q : Quaternion) {n : ℝ} (hn : 0 < n) :
    Norm (divScalar q n) = Norm q / n := by
  unfold Norm divScalar
  have h : q.X / n * (q.X / n) + q.Y / n * (q.Y / n) + q.Z / n * (q.Z / n)
      + q.W / n * (q.W / n)
      = (q.X * q.X + q.Y * q.Y + q.Z * q.Z + q.W * q.W) / (n * n) := by
    field_simp
  simp only [h]
  rw [Real.sqrt_div' _ (le_of_lt (mul_pos hn hn)), Real.sqrt_mul_self (le_of_lt hn)]

theorem Norm_Normalized {q : Quaternion} (h : Norm q ≠ 0) : Norm (Normalized q) = 1 := by
  unfold Normalized
  rw [Norm_divScalar q (Norm_pos_of_ne_zero h)]
  exact div_self h

theorem Normalized_of_Norm_eq_one {q : Quaternion} (h : Norm q = 1) : Normalized q = q := by
  unfold Normalized divScalar
  rw [h]
  simp

end Quaternion

/-- C11: for every quaternion of non-zero norm, the Hamilton product of the quaternion
with its `Inverse`, on either side, is the identity quaternion. -/
theorem C11_inverse_is_multiplicative_inverse (q : Quaternion) (h : Quaternion.Norm q ≠ 0) :
    Quaternion.mul q (Quaternion.Inverse q) = Quaternion.Identity
    ∧ Quaternion.mul (Quaternion.Inverse q) q = Quaternion.Identity := by
  have hn := Quaternion.Norm_mul_self q
  have hne : Quaternion.Norm q * Quaternion.Norm q ≠ 0 := mul_ne_zero h h
  constructor
  · ext
    · simp only [Quaternion.mul, Quaternion.Inverse, Quaternion.divScalar, Quaternion.Conjugate,
        Quaternion.Identity]
      field_simp
      ring
    · simp only [Quaternion.mul, Quaternion.Inverse, Quaternion.divScalar, Quaternion.Conjugate,
        Quaternion.Identity]
      field_simp
      ring
    · simp only [Quaternion.mul, Quaternion.Inverse, Quaternion.divScalar, Quaternion.Conjugate,
        Quaternion.Identity]
      field_simp
      ring
    · simp only [Quaternion.mul, Quaternion.Inverse, Quaternion.divScalar, Quaternion.Conjugate,
        Quaternion.Identity]
      field_simp
      linarith
  · ext
    · simp only [Quaternion.mul, Quaternion.Inverse, Quaternion.divScalar, Quaternion.Conjugate,
        Quaternion.Identity]
      field_simp
      ring
    · simp only [Quaternion.mul, Quaternion.Inverse, Quaternion.divScalar, Quaternion.Conjugate,
        Quaternion.Identity]
      field_simp
      ring
    · simp only [Quaternion.mul, Quaternion.Inverse, Quaternion.divScalar, Quaternion.Conjugate,
        Quaternion.Identity]
      field_simp
      ring
    · simp only [Quaternion.mul, Quaternion.Inverse, Quaternion.divScalar, Quaternion.Conjugate,
        Quaternion.Identity]
      field_simp
      linarith

/-- C12: for every quaternion of non-zero norm, `Normalized` has norm 1, is the
quaternion scaled by the positive factor `1 / Norm`, and normalizing it again changes
nothing. -/
theorem C12_normalized_has_norm_one (q : Quaternion) (h : Quaternion.Norm q ≠ 0) :
    Quaternion.Norm (Quaternion.Normalized q) = 1
    ∧ Quaternion.Normalized q = Quaternion.mulScalar q (1 / Quaternion.Norm q)
    ∧ 0 < 1 / Quaternion.Norm q
    ∧ Quaternion.Normalized (Quaternion.Normalized q) = Quaternion.Normalized q := by
  refine ⟨Quaternion.Norm_Normalized h, ?_, ?_,
    Quaternion.Normalized_of_Norm_eq_one (Quaternion.Norm_Normalized h)⟩
  · ext <;> simp [Quaternion.Normalized, Quaternion.divScalar, Quaternion.mulScalar, div_eq_mul_inv]
  · exact one_div_pos.mpr (Quaternion.Norm_pos_of_ne_zero h)

/-- C13: `FromEuler(x, y, z)` is the Hamilton product of the rotation by `y` about
(0,1,0), the rotation by `x` about (1,0,0) and the rotation by `z` about (0,0,1), in
that order (so that z is applied first, then x, then y), with either grouping of the
product; `FromEuler(Vector3(x, y, z))` is the same quaternion. -/
theorem C13_fromEuler_is_product (x y z : ℝ) :
    Quaternion.FromEuler x y z
      = Quaternion.mul
          (Quaternion.mul (Quaternion.FromAngleAxis y ⟨0, 1, 0⟩)
            (Quaternion.FromAngleAxis x ⟨1, 0, 0⟩))
          (Quaternion.FromAngleAxis z ⟨0, 0, 1⟩)
    ∧ Quaternion.FromEuler x y z
      = Quaternion.mul (Quaternion.FromAngleAxis y ⟨0, 1, 0⟩)
          (Quaternion.mul (Quaternion.FromAngleAxis x ⟨1, 0, 0⟩)
            (Quaternion.FromAngleAxis z ⟨0, 0, 1⟩))
    ∧ Quaternion.FromEulerVector ⟨x, y, z⟩ = Quaternion.FromEuler x y z := by
  have hx : x * 0.5 = x / 2 := by norm_num; ring
  have hy : y * 0.5 = y / 2 := by norm_num; ring
  have hz : z * 0.5 = z / 2 := by norm_num; ring
  refine ⟨?_, ?_, rfl⟩
  · ext <;> simp [Quaternion.FromEuler, Quaternion.FromAngleAxis, Quaternion.mul, hx, hy, hz] <;> ring
  · ext <;> simp [Quaternion.FromEuler, Quaternion.FromAngleAxis, Quaternion.mul, hx, hy, hz] <;> ring

namespace Quaternion

/-- Sum of the squares of the components of a weighted sum of two quaternions. -/
theorem sumSq_add_mulScalar (a b : Quaternion) (u v : ℝ) :
    (add (mulScalar a u) (mulScalar b v)).X * (add (mulScalar a u) (mulScalar b v)).X
      + (add (mulScalar a u) (mulScalar b v)).Y * (add (mulScalar a u) (mulScalar b v)).Y
      + (add (mulScalar a u) (mulScalar b v)).Z * (add (mulScalar a u) (mulScalar b v)).Z
      + (add (mulScalar a u) (mulScalar b v)).W * (add (mulScalar a u) (mulScalar b v)).W
      = u * u * (Norm a * Norm a) + v * v * (Norm b * Norm b) + 2 * (u * v) * Dot a b := by
  rw [Norm_mul_self, Norm_mul_self]
  simp only [add, mulScalar, Dot]
  ring

theorem sumSq_sub_mulScalar (a b : Quaternion) (u v : ℝ) :
    (sub (mulScalar a u) (mulScalar b v)).X * (sub (mulScalar a u) (mulScalar b v)).X
      + (sub (mulScalar a u) (mulScalar b v)).Y * (sub (mulScalar a u) (mulScalar b v)).Y
      + (sub (mulScalar a u) (mulScalar b v)).Z * (sub (mulScalar a u) (mulScalar b v)).Z
      + (sub (mulScalar a u) (mulScalar b v)).W * (sub (mulScalar a u) (mulScalar b v)).W
      = u * u * (Norm a * Norm a) + v * v * (Norm b * Norm b) - 2 * (u * v) * Dot a b := by
  rw [Norm_mul_self, Norm_mul_self]
  simp only [sub, mulScalar, Dot]
  ring

theorem Norm_ne_zero_of_sumSq_pos {q : Quaternion}
    (h : 0 < q.X * q.X + q.Y * q.Y + q.Z * q.Z + q.W * q.W) : Norm q ≠ 0 := by
  intro h0
  have := Norm_mul_self q
  rw [h0] at this
  linarith

/-- For a weight within [0,1] and quaternions of non-zero norm, the quaternion that
`LerpUnclamped` normalizes is not zero, so the result has norm 1. -/
theorem Norm_LerpUnclamped {a b : Quaternion} (ha : Norm a ≠ 0) (hb : Norm b ≠ 0) {t : ℝ}
    (h0 : 0 ≤ t) (h1 : t ≤ 1) : Norm (LerpUnclamped a b t) = 1 := by
  have pa : 0 < Norm a * Norm a := mul_pos (Norm_pos_of_ne_zero ha) (Norm_pos_of_ne_zero ha)
  have pb : 0 < Norm b * Norm b := mul_pos (Norm_pos_of_ne_zero hb) (Norm_pos_of_ne_zero hb)
  have hu : 0 ≤ 1 - t := by linarith
  have key : 0 < (1 - t) * (1 - t) * (Norm a * Norm a) + t * t * (Norm b * Norm b) := by
    rcases eq_or_lt_of_le h0 with h | h
    · rw [← h]; simpa using pa
    · have : 0 < t * t * (Norm b * Norm b) := mul_pos (mul_pos h h) pb
      have : 0 ≤ (1 - t) * (1 - t) * (Norm a * Norm a) :=
        mul_nonneg (mul_self_nonneg _) (le_of_lt pa)
      linarith
  unfold LerpUnclamped
  by_cases hd : Dot a b ≥ 0
  · rw [if_pos hd]
    apply Norm_Normalized
    apply Norm_ne_zero_of_sumSq_pos
    rw [sumSq_add_mulScalar]
    have : 0 ≤ 2 * ((1 - t) * t) * Dot a b :=
      mul_nonneg (mul_nonneg (by norm_num) (mul_nonneg hu h0)) hd
    linarith
  · rw [if_neg hd]
    apply Norm_Normalized
    apply Norm_ne_zero_of_sumSq_pos
    rw [sumSq_sub_mulScalar]
    have hd2 : Dot a b ≤ 0 := le_of_lt (not_le.mp hd)
    have : 0 ≤ 2 * ((1 - t) * t) * (-Dot a b) :=
      mul_nonneg (mul_nonneg (by norm_num) (mul_nonneg hu h0)) (by linarith)
    linarith

theorem LerpUnclamped_zero (a b : Quaternion) : LerpUnclamped a b 0 = Normalized a := by
  have h1 : add (mulScalar a (1 - 0)) (mulScalar b 0) = a := by
    ext <;> simp [add, mulScalar]
  have h2 : sub (mulScalar a (1 - 0)) (mulScalar b 0) = a := by
    ext <;> simp [sub, mulScalar]
  unfold LerpUnclamped
  rw [h1, h2]
  simp

theorem LerpUnclamped_one_of_nonneg (a b : Quaternion) (h : 0 ≤ Dot a b) :
    LerpUnclamped a b 1 = Normalized b := by
  have h1 : add (mulScalar a (1 - 1)) (mulScalar b 1) = b := by
    ext <;> simp [add, mulScalar]
  unfold LerpUnclamped
  rw [if_pos h, h1]

theorem Norm_neg (q : Quaternion) : Norm (neg q) = Norm q := by
  unfold Norm neg mulScalar
  congr 1
  ring

theorem LerpUnclamped_one_of_neg (a b : Quaternion) (h : Dot a b < 0) :
    LerpUnclamped a b 1 = neg (Normalized b) := by
  have h1 : sub (mulScalar a (1 - 1)) (mulScalar b 1) = neg b := by
    ext <;> simp [sub, mulScalar, neg]
  unfold LerpUnclamped
  rw [if_neg (not_le.mpr h), h1]
  unfold Normalized
  rw [Norm_neg]
  ext <;> simp [neg, mulScalar, divScalar, neg_div]

end Quaternion

/-- C16 (as amended): for quaternions of non-zero norm, `Lerp(a, b, t)` has norm 1 and
equals `LerpUnclamped(a, b, min(max(t, 0), 1))` whenever `t <= 1` or `Dot(a, b) >= 0`;
for `t > 1` and `Dot(a, b) < 0` it is `Normalized(b)`, the negation of
`LerpUnclamped(a, b, 1)` (the same rotation with the opposite sign). -/
theorem C16_lerp_clamped (a b : Quaternion) (t : ℝ)
    (ha : Quaternion.Norm a ≠ 0) (hb : Quaternion.Norm b ≠ 0) :
    Quaternion.Norm (Quaternion.Lerp a b t) = 1
    ∧ (t ≤ 1 ∨ 0 ≤ Quaternion.Dot a b →
        Quaternion.Lerp a b t = Quaternion.LerpUnclamped a b (min (max t 0) 1))
    ∧ (1 < t → Quaternion.Dot a b < 0 →
        Quaternion.Lerp a b t = Quaternion.Normalized b
        ∧ Quaternion.LerpUnclamped a b (min (max t 0) 1)
            = Quaternion.neg (Quaternion.Normalized b)) := by
  refine ⟨?_, ?_, ?_⟩
  · unfold Quaternion.Lerp
    by_cases h0 : t < 0
    · rw [if_pos h0]; exact Quaternion.Norm_Normalized ha
    · rw [if_neg h0]
      by_cases h1 : t > 1
      · rw [if_pos h1]; exact Quaternion.Norm_Normalized hb
      · rw [if_neg h1]
        exact Quaternion.Norm_LerpUnclamped ha hb (not_lt.mp h0) (not_lt.mp h1)
  · intro h
    unfold Quaternion.Lerp
    by_cases h0 : t < 0
    · rw [if_pos h0, max_eq_right (le_of_lt h0), min_eq_left (by norm_num : (0 : ℝ) ≤ 1),
        Quaternion.LerpUnclamped_zero]
    · rw [if_neg h0]
      by_cases h1 : t > 1
      · rw [if_pos h1, max_eq_left (not_lt.mp h0), min_eq_right (le_of_lt h1)]
        rcases h with h | h
        · exact absurd h1 (not_lt.mpr h)
        · exact (Quaternion.LerpUnclamped_one_of_nonneg a b h).symm
      · rw [if_neg h1, max_eq_left (not_lt.mp h0), min_eq_left (not_lt.mp h1)]
  · intro h1 hd
    have h0 : ¬ t < 0 := by linarith
    constructor
    · unfold Quaternion.Lerp
      rw [if_neg h0, if_pos h1]
    · rw [max_eq_left (not_lt.mp h0), min_eq_right (le_of_lt h1)]
      exact Quaternion.LerpUnclamped_one_of_neg a b hd

/-- Witness for C16: the identity and (0, 0, 0, 2), whose dot product is positive, at t = 3. -/
theorem C16_lerp_clamped_witness :
    Quaternion.Norm Quaternion.Identity ≠ 0 ∧ Quaternion.Norm ⟨0, 0, 0, 2⟩ ≠ 0
    ∧ ((3 : ℝ) ≤ 1 ∨ 0 ≤ Quaternion.Dot Quaternion.Identity ⟨0, 0, 0, 2⟩)
    ∧ Quaternion.Lerp Quaternion.Identity ⟨0, 0, 0, 2⟩ 3
        = Quaternion.LerpUnclamped Quaternion.Identity ⟨0, 0, 0, 2⟩ (min (max 3 0) 1) := by
  have ha : Quaternion.Norm Quaternion.Identity ≠ 0 := by
    apply Quaternion.Norm_ne_zero_of_sumSq_pos
    norm_num [Quaternion.Identity]
  have hb : Quaternion.Norm ⟨0, 0, 0, 2⟩ ≠ 0 := by
    apply Quaternion.Norm_ne_zero_of_sumSq_pos
    norm_num
  have hd : (3 : ℝ) ≤ 1 ∨ 0 ≤ Quaternion.Dot Quaternion.Identity ⟨0, 0, 0, 2⟩ := by
    right
    norm_num [Quaternion.Dot, Quaternion.Identity]
  exact ⟨ha, hb, hd,
    (C16_lerp_clamped Quaternion.Identity ⟨0, 0, 0, 2⟩ 3 ha hb).2.1 hd⟩

/-- C16 (counterexample): for a = (0, 0, 0, 1), b = (0, 0, 0, -1), both of norm 1, and
t = 2, `Lerp` returns (0, 0, 0, -1) while `LerpUnclamped` at the clamped weight 1
returns (0, 0, 0, 1). -/
theorem C16_counterexample_opposite_sign :
    Quaternion.Norm ⟨0, 0, 0, 1⟩ ≠ 0 ∧ Quaternion.Norm ⟨0, 0, 0, -1⟩ ≠ 0
    ∧ Quaternion.Lerp ⟨0, 0, 0, 1⟩ ⟨0, 0, 0, -1⟩ 2 = ⟨0, 0, 0, -1⟩
    ∧ Quaternion.LerpUnclamped ⟨0, 0, 0, 1⟩ ⟨0, 0, 0, -1⟩ (min (max 2 0) 1) = ⟨0, 0, 0, 1⟩
    ∧ Quaternion.Lerp ⟨0, 0, 0, 1⟩ ⟨0, 0, 0, -1⟩ 2
        ≠ Quaternion.LerpUnclamped ⟨0, 0, 0, 1⟩ ⟨0, 0, 0, -1⟩ (min (max 2 0) 1) := by
  have n1 : Quaternion.Norm ⟨0, 0, 0, 1⟩ = 1 := by
    rw [Quaternion.Norm_eq_one_iff]; norm_num
  have n2 : Quaternion.Norm ⟨0, 0, 0, -1⟩ = 1 := by
    rw [Quaternion.Norm_eq_one_iff]; norm_num
  have hd : Quaternion.Dot ⟨0, 0, 0, 1⟩ ⟨0, 0, 0, -1⟩ < 0 := by
    norm_num [Quaternion.Dot]
  have e1 : Quaternion.Lerp ⟨0, 0, 0, 1⟩ ⟨0, 0, 0, -1⟩ 2 = ⟨0, 0, 0, -1⟩ := by
    unfold Quaternion.Lerp
    rw [if_neg (by norm_num), if_pos (by norm_num), Quaternion.Normalized_of_Norm_eq_one n2]
  have e2 : Quaternion.LerpUnclamped ⟨0, 0, 0, 1⟩ ⟨0, 0, 0, -1⟩ (min (max 2 0) 1)
      = ⟨0, 0, 0, 1⟩ := by
    rw [max_eq_left (by norm_num : (0 : ℝ) ≤ 2), min_eq_right (by norm_num : (1 : ℝ) ≤ 2),
      Quaternion.LerpUnclamped_one_of_neg _ _ hd, Quaternion.Normalized_of_Norm_eq_one n2]
    ext <;> simp [Quaternion.neg, Quaternion.mulScalar]
  refine ⟨by rw [n1]; norm_num, by rw [n2]; norm_num, e1, e2, ?_⟩
  rw [e1, e2]
  intro h
  have hw := congrArg Quaternion.W h
  norm_num at hw

/-- Witness for C11: the quaternion (0, 0, 0, 2), of norm 2. -/
theorem C11_inverse_is_multiplicative_inverse_witness :
    Quaternion.Norm ⟨0, 0, 0, 2⟩ ≠ 0
    ∧ Quaternion.mul ⟨0, 0, 0, 2⟩ (Quaternion.Inverse ⟨0, 0, 0, 2⟩) = Quaternion.Identity
    ∧ Quaternion.mul (Quaternion.Inverse ⟨0, 0, 0, 2⟩) ⟨0, 0, 0, 2⟩ = Quaternion.Identity := by
  have h : Quaternion.Norm ⟨0, 0, 0, 2⟩ ≠ 0 := by
    apply Quaternion.Norm_ne_zero_of_sumSq_pos
    norm_num
  exact ⟨h, C11_inverse_is_multiplicative_inverse ⟨0, 0, 0, 2⟩ h⟩

/-- Witness for C12: the quaternion (0, 3, 0, 4), of norm 5. -/
theorem C12_normalized_has_norm_one_witness :
    Quaternion.Norm ⟨0, 3, 0, 4⟩ ≠ 0
    ∧ Quaternion.Norm (Quaternion.Normalized ⟨0, 3, 0, 4⟩) = 1 := by
  have h : Quaternion.Norm ⟨0, 3, 0, 4⟩ ≠ 0 := by
    apply Quaternion.Norm_ne_zero_of_sumSq_pos
    norm_num
  exact ⟨h, (C12_normalized_has_norm_one ⟨0, 3, 0, 4⟩ h).1⟩

namespace Quaternion

theorem Dot_comm (a b : Quaternion) : Dot a b = Dot b a := by
  simp only [Dot]
  ring

theorem eq_of_one_le_Dot {a b : Quaternion} (ha : Norm a = 1) (hb : Norm b = 1)
    (h : 1 ≤ Dot a b) : b = a := by
  rw [Norm_eq_one_iff] at ha hb
  simp only [Dot] at h
  have hs : (b.X - a.X) * (b.X - a.X) + (b.Y - a.Y) * (b.Y - a.Y)
      + (b.Z - a.Z) * (b.Z - a.Z) + (b.W - a.W) * (b.W - a.W) ≤ 0 := by
    nlinarith
  have hx : (b.X - a.X) * (b.X - a.X) = 0 := by
    nlinarith [mul_self_nonneg (b.X - a.X), mul_self_nonneg (b.Y - a.Y),
      mul_self_nonneg (b.Z - a.Z), mul_self_nonneg (b.W - a.W)]
  have hy : (b.Y - a.Y) * (b.Y - a.Y) = 0 := by
    nlinarith [mul_self_nonneg (b.X - a.X), mul_self_nonneg (b.Y - a.Y),
      mul_self_nonneg (b.Z - a.Z), mul_self_nonneg (b.W - a.W)]
  have hz : (b.Z - a.Z) * (b.Z - a.Z) = 0 := by
    nlinarith [mul_self_nonneg (b.X - a.X), mul_self_nonneg (b.Y - a.Y),
      mul_self_nonneg (b.Z - a.Z), mul_self_nonneg (b.W - a.W)]
  have hw : (b.W - a.W) * (b.W - a.W) = 0 := by
    nlinarith [mul_self_nonneg (b.X - a.X), mul_self_nonneg (b.Y - a.Y),
      mul_self_nonneg (b.Z - a.Z), mul_self_nonneg (b.W - a.W)]
  ext
  · exact sub_eq_zero.mp (mul_self_eq_zero.mp hx)
  · exact sub_eq_zero.mp (mul_self_eq_zero.mp hy)
  · exact sub_eq_zero.mp (mul_self_eq_zero.mp hz)
  · exact sub_eq_zero.mp (mul_self_eq_zero.mp hw)

theorem neg_neg_eq (a : Quaternion) : neg (neg a) = a := by
  ext <;> simp [neg, mulScalar]

theorem Dot_neg_right (a b : Quaternion) : Dot a (neg b) = -Dot a b := by
  simp only [Dot, neg, mulScalar]
  ring

theorem Dot_self_of_unit {a : Quaternion} (ha : Norm a = 1) : Dot a a = 1 := by
  rw [Norm_eq_one_iff] at ha
  simpa [Dot] using ha

theorem Angle_eq_zero_iff (a b : Quaternion) : Angle a b = 0 ↔ 1 ≤ |Dot a b| := by
  unfold Angle
  constructor
  · intro h
    have h2 : Real.arccos (min |Dot a b| 1) = 0 := by linarith
    have h3 := Real.arccos_eq_zero.mp h2
    exact le_trans h3 (min_le_left _ _)
  · intro h
    rw [min_eq_right h, Real.arccos_one]
    norm_num

end Quaternion

/-- C19: for unit quaternions `a` and `b`, `Angle(a, b)` lies between 0 and pi, is
symmetric in its arguments, and is 0 exactly when `b = a` or `b = -a`. -/
theorem C19_angle_between_unit_quaternions (a b : Quaternion)
    (ha : Quaternion.Norm a = 1) (hb : Quaternion.Norm b = 1) :
    0 ≤ Quaternion.Angle a b ∧ Quaternion.Angle a b ≤ Real.pi
    ∧ Quaternion.Angle a b = Quaternion.Angle b a
    ∧ (Quaternion.Angle a b = 0 ↔ b = a ∨ b = Quaternion.neg a) := by
  refine ⟨?_, ?_, ?_, ?_⟩
  · unfold Quaternion.Angle
    exact mul_nonneg (Real.arccos_nonneg _) (by norm_num)
  · unfold Quaternion.Angle
    have h : Real.arccos (min |Quaternion.Dot a b| 1) ≤ Real.pi / 2 :=
      Real.arccos_le_pi_div_two.mpr (le_min (abs_nonneg _) (by norm_num))
    linarith
  · unfold Quaternion.Angle
    rw [Quaternion.Dot_comm]
  · rw [Quaternion.Angle_eq_zero_iff]
    constructor
    · intro h
      rcases le_abs'.mp h with h1 | h1
      · right
        have hn : Quaternion.Norm (Quaternion.neg a) = 1 := by
          rw [Quaternion.Norm_neg]; exact ha
        have hd : 1 ≤ Quaternion.Dot (Quaternion.neg a) b := by
          rw [Quaternion.Dot_comm, Quaternion.Dot_neg_right, Quaternion.Dot_comm]
          linarith
        exact Quaternion.eq_of_one_le_Dot hn hb hd
      · left
        exact Quaternion.eq_of_one_le_Dot ha hb h1
    · rintro (h | h)
      · rw [h, Quaternion.Dot_self_of_unit ha]
        simp
      · rw [h, Quaternion.Dot_neg_right, Quaternion.Dot_self_of_unit ha]
        simp

/-- Witness for C19: the identity and (1, 0, 0, 0) are unit quaternions, neither equal
nor opposite, so their angle is not 0. -/
theorem C19_angle_between_unit_quaternions_witness :
    Quaternion.Norm Quaternion.Identity = 1 ∧ Quaternion.Norm ⟨1, 0, 0, 0⟩ = 1
    ∧ Quaternion.Angle Quaternion.Identity ⟨1, 0, 0, 0⟩ ≠ 0 := by
  have ha : Quaternion.Norm Quaternion.Identity = 1 := by
    rw [Quaternion.Norm_eq_one_iff]; norm_num [Quaternion.Identity]
  have hb : Quaternion.Norm ⟨1, 0, 0, 0⟩ = 1 := by
    rw [Quaternion.Norm_eq_one_iff]; norm_num
  refine ⟨ha, hb, ?_⟩
  intro h
  rcases (C19_angle_between_unit_quaternions Quaternion.Identity ⟨1, 0, 0, 0⟩ ha hb).2.2.2.mp h
    with h1 | h1
  · have := congrArg Quaternion.X h1
    norm_num [Quaternion.Identity] at this
  · have := congrArg Quaternion.X h1
    norm_num [Quaternion.Identity, Quaternion.neg, Quaternion.mulScalar] at this

/-- C18: for a non-zero axis and an angle between 0 and 2 pi, `ToAngleAxis` of
`FromAngleAxis(angle, axis)` outputs that angle; it outputs the axis divided by its
length when `sin(angle / 2) >= 0.00001`, and the axis (1, 0, 0) when
`sin(angle / 2) < 0.00001`. -/
theorem C18_toAngleAxis_fromAngleAxis (angle : ℝ) (axis : Vector3)
    (haxis : axis ≠ Vector3.Zero) (h0 : 0 ≤ angle) (h1 : angle ≤ 2 * Real.pi) :
    (Quaternion.ToAngleAxis (Quaternion.FromAngleAxis angle axis)).1 = angle
    ∧ (0.00001 ≤ Real.sin (angle / 2) →
        (Quaternion.ToAngleAxis (Quaternion.FromAngleAxis angle axis)).2
          = Vector3.divScalar axis (Real.sqrt (Vector3.SqrMagnitude axis)))
    ∧ (Real.sin (angle / 2) < 0.00001 →
        (Quaternion.ToAngleAxis (Quaternion.FromAngleAxis angle axis)).2 = ⟨1, 0, 0⟩) := by
  have hh0 : 0 ≤ angle / 2 := by linarith
  have hh1 : angle / 2 ≤ Real.pi := by linarith
  have hsin : 0 ≤ Real.sin (angle / 2) := Real.sin_nonneg_of_nonneg_of_le_pi hh0 hh1
  have hm : 0 < Real.sqrt (axis.X * axis.X + axis.Y * axis.Y + axis.Z * axis.Z) := by
    apply Real.sqrt_pos.mpr
    by_contra hc
    apply haxis
    have hc2 := not_lt.mp hc
    have hx := mul_self_nonneg axis.X
    have hy := mul_self_nonneg axis.Y
    have hz := mul_self_nonneg axis.Z
    ext
    · show axis.X = 0
      exact mul_self_eq_zero.mp (by linarith)
    · show axis.Y = 0
      exact mul_self_eq_zero.mp (by linarith)
    · show axis.Z = 0
      exact mul_self_eq_zero.mp (by linarith)
  have hin : Quaternion.ToAngleAxisInput (Quaternion.FromAngleAxis angle axis)
      = Quaternion.FromAngleAxis angle axis := by
    unfold Quaternion.ToAngleAxisInput
    rw [if_neg]
    simp only [Quaternion.FromAngleAxis, gt_iff_lt, not_lt]
    exact Real.cos_le_one _
  have hs : Real.sqrt (1 - (Quaternion.FromAngleAxis angle axis).W
      * (Quaternion.FromAngleAxis angle axis).W) = Real.sin (angle / 2) := by
    have : 1 - (Quaternion.FromAngleAxis angle axis).W * (Quaternion.FromAngleAxis angle axis).W
        = Real.sin (angle / 2) * Real.sin (angle / 2) := by
      simp only [Quaternion.FromAngleAxis]
      nlinarith [Real.sin_sq_add_cos_sq (angle / 2)]
    rw [this, Real.sqrt_mul_self hsin]
  refine ⟨?_, ?_, ?_⟩
  · simp only [Quaternion.ToAngleAxis, hin]
    simp only [Quaternion.FromAngleAxis]
    rw [Real.arccos_cos hh0 hh1]
    ring
  · intro hge
    have hpos : 0 < Real.sin (angle / 2) := lt_of_lt_of_le (by norm_num) hge
    simp only [Quaternion.ToAngleAxis, hin, hs]
    rw [if_neg (not_lt.mpr hge)]
    simp only [Quaternion.FromAngleAxis, Vector3.divScalar, Vector3.SqrMagnitude]
    ext
    · simp only []
      field_simp
      ring
    · simp only []
      field_simp
      ring
    · simp only []
      field_simp
      ring
  · intro hlt
    simp only [Quaternion.ToAngleAxis, hin, hs]
    rw [if_pos hlt]

/-- Witness for C18: a half turn about the axis (0, 0, 2). -/
theorem C18_toAngleAxis_fromAngleAxis_witness :
    (⟨0, 0, 2⟩ : Vector3) ≠ Vector3.Zero ∧ 0 ≤ Real.pi ∧ Real.pi ≤ 2 * Real.pi
    ∧ (Quaternion.ToAngleAxis (Quaternion.FromAngleAxis Real.pi ⟨0, 0, 2⟩)).1 = Real.pi := by
  have hax : (⟨0, 0, 2⟩ : Vector3) ≠ Vector3.Zero := by
    intro h
    have := congrArg Vector3.Z h
    norm_num [Vector3.Zero] at this
  have h0 : 0 ≤ Real.pi := Real.pi_pos.le
  have h1 : Real.pi ≤ 2 * Real.pi := by linarith [Real.pi_pos]
  exact ⟨hax, h0, h1, (C18_toAngleAxis_fromAngleAxis Real.pi ⟨0, 0, 2⟩ hax h0 h1).1⟩

namespace Quaternion

theorem abs_Dot_le_one {a b : Quaternion} (ha : Norm a = 1) (hb : Norm b = 1) :
    |Dot a b| ≤ 1 := by
  rw [Norm_eq_one_iff] at ha hb
  rw [abs_le]
  simp only [Dot]
  constructor
  · nlinarith [mul_self_nonneg (a.X + b.X), mul_self_nonneg (a.Y + b.Y),
      mul_self_nonneg (a.Z + b.Z), mul_self_nonneg (a.W + b.W)]
  · nlinarith [mul_self_nonneg (a.X - b.X), mul_self_nonneg (a.Y - b.Y),
      mul_self_nonneg (a.Z - b.Z), mul_self_nonneg (a.W - b.W)]

theorem sumSq_SlerpBlend {a b : Quaternion} (ha : Norm a = 1) (hb : Norm b = 1) (t : ℝ) :
    (SlerpBlend a b t).X * (SlerpBlend a b t).X + (SlerpBlend a b t).Y * (SlerpBlend a b t).Y
      + (SlerpBlend a b t).Z * (SlerpBlend a b t).Z + (SlerpBlend a b t).W * (SlerpBlend a b t).W
      = (SlerpWeights a b t).1 * (SlerpWeights a b t).1
        + (SlerpWeights a b t).2 * (SlerpWeights a b t).2
        + 2 * ((SlerpWeights a b t).1 * ((SlerpWeights a b t).2 * Dot a b)) := by
  rw [Norm_eq_one_iff] at ha hb
  simp only [SlerpBlend, Dot]
  generalize (SlerpWeights a b t).1 = n2
  generalize (SlerpWeights a b t).2 = n1
  linear_combination (n2 * n2) * ha + (n1 * n1) * hb

/-- The slerp identity: `sin²α + sin²β + 2 sinα sinβ cos(α+β) = sin²(α+β)`. -/
theorem sin_sq_add_sin_sq (x y : ℝ) :
    Real.sin x * Real.sin x + Real.sin y * Real.sin y
      + 2 * (Real.sin x * (Real.sin y * Real.cos (x + y)))
      = Real.sin (x + y) * Real.sin (x + y) := by
  rw [Real.cos_add, Real.sin_add]
  have hx := Real.sin_sq_add_cos_sq x
  have hy := Real.sin_sq_add_cos_sq y
  linear_combination (-(Real.sin y) ^ 2) * hx + (-(Real.sin x) ^ 2) * hy

/-- The weights of `SlerpUnclamped` in terms of the absolute dot product `n3`: the
blended quaternion of two unit quaternions has a positive sum of squares. -/
theorem sumSq_SlerpBlend_pos {a b : Quaternion} (ha : Norm a = 1) (hb : Norm b = 1) (t : ℝ) :
    0 < (SlerpBlend a b t).X * (SlerpBlend a b t).X
      + (SlerpBlend a b t).Y * (SlerpBlend a b t).Y
      + (SlerpBlend a b t).Z * (SlerpBlend a b t).Z
      + (SlerpBlend a b t).W * (SlerpBlend a b t).W := by
  rw [sumSq_SlerpBlend ha hb]
  have habs := abs_Dot_le_one ha hb
  have hn3 : (if Dot a b < 0 then -Dot a b else Dot a b) = |Dot a b| := by
    by_cases hd : Dot a b < 0
    · rw [if_pos hd, abs_of_neg hd]
    · rw [if_neg hd, abs_of_nonneg (not_lt.mp hd)]
  unfold SlerpWeights
  rw [hn3]
  by_cases hbig : |Dot a b| > 0.999999
  · rw [if_pos hbig]
    have hprod : (if Dot a b < 0 then -t else t) * Dot a b = t * |Dot a b| := by
      by_cases hd : Dot a b < 0
      · rw [if_pos hd, abs_of_neg hd]; ring
      · rw [if_neg hd, abs_of_nonneg (not_lt.mp hd)]
    have hsq : (if Dot a b < 0 then -t else t) * (if Dot a b < 0 then -t else t) = t * t := by
      by_cases hd : Dot a b < 0
      · rw [if_pos hd]; ring
      · rw [if_neg hd]
    simp only [hprod, hsq]
    have he : 0 ≤ 1 - |Dot a b| := by linarith
    have hb2 : 1 - |Dot a b| < 1 := by
      have : (0 : ℝ) < 0.999999 := by norm_num
      linarith
    nlinarith [mul_nonneg he (mul_self_nonneg (2 * t - 1))]
  · rw [if_neg hbig]
    have hle : |Dot a b| ≤ 0.999999 := not_lt.mp hbig
    have hlt1 : |Dot a b| < 1 := lt_of_le_of_lt hle (by norm_num)
    have hcos : Real.cos (Real.arccos |Dot a b|) = |Dot a b| :=
      Real.cos_arccos (by linarith [abs_nonneg (Dot a b)]) (le_of_lt hlt1)
    have hsinpos : 0 < Real.sin (Real.arccos |Dot a b|) := by
      rw [Real.sin_arccos]
      apply Real.sqrt_pos.mpr
      have : |Dot a b| ^ 2 < 1 := by
        have h0 := abs_nonneg (Dot a b)
        nlinarith
      linarith
    have hprod : (if Dot a b < 0 then
          -Real.sin (t * Real.arccos |Dot a b|) * (1 / Real.sin (Real.arccos |Dot a b|))
        else Real.sin (t * Real.arccos |Dot a b|) * (1 / Real.sin (Real.arccos |Dot a b|)))
          * Dot a b
        = Real.sin (t * Real.arccos |Dot a b|) * (1 / Real.sin (Real.arccos |Dot a b|))
          * |Dot a b| := by
      by_cases hd : Dot a b < 0
      · rw [if_pos hd, abs_of_neg hd]; ring
      · rw [if_neg hd, abs_of_nonneg (not_lt.mp hd)]
    have hsq : (if Dot a b < 0 then
          -Real.sin (t * Real.arccos |Dot a b|) * (1 / Real.sin (Real.arccos |Dot a b|))
        else Real.sin (t * Real.arccos |Dot a b|) * (1 / Real.sin (Real.arccos |Dot a b|)))
        * (if Dot a b < 0 then
          -Real.sin (t * Real.arccos |Dot a b|) * (1 / Real.sin (Real.arccos |Dot a b|))
        else Real.sin (t * Real.arccos |Dot a b|) * (1 / Real.sin (Real.arccos |Dot a b|)))
        = (Real.sin (t * Real.arccos |Dot a b|) * (1 / Real.sin (Real.arccos |Dot a b|)))
          * (Real.sin (t * Real.arccos |Dot a b|) * (1 / Real.sin (Real.arccos |Dot a b|))) := by
      by_cases hd : Dot a b < 0
      · rw [if_pos hd]; ring
      · rw [if_neg hd]
    simp only [hprod, hsq]
    have hid := sin_sq_add_sin_sq ((1 - t) * Real.arccos |Dot a b|) (t * Real.arccos |Dot a b|)
    have hsum : (1 - t) * Real.arccos |Dot a b| + t * Real.arccos |Dot a b|
        = Real.arccos |Dot a b| := by ring
    rw [hsum, hcos] at hid
    have hone : Real.sin ((1 - t) * Real.arccos |Dot a b|)
          * (1 / Real.sin (Real.arccos |Dot a b|))
          * (Real.sin ((1 - t) * Real.arccos |Dot a b|)
            * (1 / Real.sin (Real.arccos |Dot a b|)))
        + Real.sin (t * Real.arccos |Dot a b|) * (1 / Real.sin (Real.arccos |Dot a b|))
          * (Real.sin (t * Real.arccos |Dot a b|) * (1 / Real.sin (Real.arccos |Dot a b|)))
        + 2 * (Real.sin ((1 - t) * Real.arccos |Dot a b|)
            * (1 / Real.sin (Real.arccos |Dot a b|))
          * (Real.sin (t * Real.arccos |Dot a b|) * (1 / Real.sin (Real.arccos |Dot a b|))
            * |Dot a b|)) = 1 := by
      have hne : Real.sin (Real.arccos |Dot a b|) ≠ 0 := ne_of_gt hsinpos
      field_simp
      linear_combination hid
    rw [hone]
    norm_num

end Quaternion

/-- C17: for unit quaternions `a` and `b` and every `t`, the quaternion that
`SlerpUnclamped` blends before normalizing is not zero, and `SlerpUnclamped(a, b, t)`
and `Slerp(a, b, t)` have norm 1, in the near-parallel branch as in the acos/sin branch. -/
theorem C17_slerp_is_normalized (a b : Quaternion) (t : ℝ)
    (ha : Quaternion.Norm a = 1) (hb : Quaternion.Norm b = 1) :
    Quaternion.SlerpBlend a b t ≠ ⟨0, 0, 0, 0⟩
    ∧ Quaternion.Norm (Quaternion.SlerpBlend a b t) ≠ 0
    ∧ Quaternion.Norm (Quaternion.SlerpUnclamped a b t) = 1
    ∧ Quaternion.Norm (Quaternion.Slerp a b t) = 1 := by
  have hpos := Quaternion.sumSq_SlerpBlend_pos ha hb t
  have hne : Quaternion.Norm (Quaternion.SlerpBlend a b t) ≠ 0 :=
    Quaternion.Norm_ne_zero_of_sumSq_pos hpos
  have hun : Quaternion.Norm (Quaternion.SlerpUnclamped a b t) = 1 :=
    Quaternion.Norm_Normalized hne
  refine ⟨?_, hne, hun, ?_⟩
  · intro h
    rw [h] at hpos
    norm_num at hpos
  · unfold Quaternion.Slerp
    by_cases h0 : t < 0
    · rw [if_pos h0]
      exact Quaternion.Norm_Normalized (by rw [ha]; norm_num)
    · rw [if_neg h0]
      by_cases h1 : t > 1
      · rw [if_pos h1]
        exact Quaternion.Norm_Normalized (by rw [hb]; norm_num)
      · rw [if_neg h1]
        exact hun

/-- Witness for C17: the unit quaternions (0, 0, 0, 1) and (1, 0, 0, 0), at a right
angle, blended at t = 1/2. -/
theorem C17_slerp_is_normalized_witness :
    Quaternion.Norm ⟨0, 0, 0, 1⟩ = 1 ∧ Quaternion.Norm ⟨1, 0, 0, 0⟩ = 1
    ∧ Quaternion.Norm (Quaternion.Slerp ⟨0, 0, 0, 1⟩ ⟨1, 0, 0, 0⟩ (1 / 2)) = 1 := by
  have ha : Quaternion.Norm ⟨0, 0, 0, 1⟩ = 1 := by
    rw [Quaternion.Norm_eq_one_iff]; norm_num
  have hb : Quaternion.Norm ⟨1, 0, 0, 0⟩ = 1 := by
    rw [Quaternion.Norm_eq_one_iff]; norm_num
  exact ⟨ha, hb, (C17_slerp_is_normalized ⟨0, 0, 0, 1⟩ ⟨1, 0, 0, 0⟩ (1 / 2) ha hb).2.2.2⟩

namespace Vector3

theorem SqrMagnitude_pos {v : Vector3} (h : v ≠ Zero) : 0 < SqrMagnitude v := by
  by_contra hc
  have hc2 := not_lt.mp hc
  simp only [SqrMagnitude] at hc2
  have hx := mul_self_nonneg v.X
  have hy := mul_self_nonneg v.Y
  have hz := mul_self_nonneg v.Z
  apply h
  ext
  · show v.X = 0
    exact mul_self_eq_zero.mp (by linarith)
  · show v.Y = 0
    exact mul_self_eq_zero.mp (by linarith)
  · show v.Z = 0
    exact mul_self_eq_zero.mp (by linarith)

end Vector3

namespace Quaternion

/-- Rotating by a quaternion divided by a scalar divides the rotated vector by the
square of the scalar. -/
theorem rotate_divScalar (q : Quaternion) (n : ℝ) (hn : n ≠ 0) (v : Vector3) :
    rotate (divScalar q n) v = Vector3.divScalar (rotate q v) (n * n) := by
  have h2 : (2.0 : ℝ) = 2 := by norm_num
  ext
  · simp only [rotate, divScalar, Vector3.divScalar, Vector3.add, Vector3.mulScalar,
      Vector3.Dot, Vector3.Cross, h2]
    field_simp
  · simp only [rotate, divScalar, Vector3.divScalar, Vector3.add, Vector3.mulScalar,
      Vector3.Dot, Vector3.Cross, h2]
    field_simp
  · simp only [rotate, divScalar, Vector3.divScalar, Vector3.add, Vector3.mulScalar,
      Vector3.Dot, Vector3.Cross, h2]
    field_simp

/-- The quaternion that `FromToRotation` normalizes, applied to the first vector
without normalization: `2 (dot + k) |f|²` times the second vector, when `k² = |f|² |t|²`. -/
theorem rotate_cross_quaternion (f t : Vector3) (k : ℝ)
    (hk : k * k = Vector3.SqrMagnitude f * Vector3.SqrMagnitude t) :
    rotate (ofVector (Vector3.Cross f t) (Vector3.Dot f t + k)) f
      = Vector3.mulScalar t (2 * (Vector3.Dot f t + k) * Vector3.SqrMagnitude f) := by
  have h2 : (2.0 : ℝ) = 2 := by norm_num
  simp only [Vector3.SqrMagnitude] at hk
  ext
  · simp only [rotate, ofVector, Vector3.add, Vector3.mulScalar, Vector3.Dot, Vector3.Cross,
      Vector3.SqrMagnitude, h2]
    linear_combination (f.X) * hk
  · simp only [rotate, ofVector, Vector3.add, Vector3.mulScalar, Vector3.Dot, Vector3.Cross,
      Vector3.SqrMagnitude, h2]
    linear_combination (f.Y) * hk
  · simp only [rotate, ofVector, Vector3.add, Vector3.mulScalar, Vector3.Dot, Vector3.Cross,
      Vector3.SqrMagnitude, h2]
    linear_combination (f.Z) * hk

theorem sumSq_cross_quaternion (f t : Vector3) (k : ℝ)
    (hk : k * k = Vector3.SqrMagnitude f * Vector3.SqrMagnitude t) :
    Norm (ofVector (Vector3.Cross f t) (Vector3.Dot f t + k))
        * Norm (ofVector (Vector3.Cross f t) (Vector3.Dot f t + k))
      = 2 * k * (k + Vector3.Dot f t) := by
  rw [Norm_mul_self]
  simp only [Vector3.SqrMagnitude] at hk
  simp only [ofVector, Vector3.Cross, Vector3.Dot]
  linear_combination (-1 : ℝ) * hk

end Quaternion

/-- C14: for non-zero vectors `f` and `t` that are not nearly opposite
(`dot(f,t)/(|f||t|) + 1 >= 0.00001`), `FromToRotation(f, t)` has norm 1 and rotates `f`
onto `(|f|/|t|) t`, the direction of `t` with the length of `f`. -/
theorem C14_fromToRotation_rotates (f t : Vector3) (hf : f ≠ Vector3.Zero)
    (ht : t ≠ Vector3.Zero)
    (hopp : 0.00001 ≤ Vector3.Dot f t
      / Real.sqrt (Vector3.SqrMagnitude f * Vector3.SqrMagnitude t) + 1) :
    Quaternion.Norm (Quaternion.FromToRotation f t) = 1
    ∧ Quaternion.rotate (Quaternion.FromToRotation f t) f
      = Vector3.mulScalar t
          (Real.sqrt (Vector3.SqrMagnitude f) / Real.sqrt (Vector3.SqrMagnitude t)) := by
  have hF := Vector3.SqrMagnitude_pos hf
  have hT := Vector3.SqrMagnitude_pos ht
  have hFT : 0 < Vector3.SqrMagnitude f * Vector3.SqrMagnitude t := mul_pos hF hT
  have hkpos : 0 < Real.sqrt (Vector3.SqrMagnitude f * Vector3.SqrMagnitude t) :=
    Real.sqrt_pos.mpr hFT
  have hkk : Real.sqrt (Vector3.SqrMagnitude f * Vector3.SqrMagnitude t)
      * Real.sqrt (Vector3.SqrMagnitude f * Vector3.SqrMagnitude t)
      = Vector3.SqrMagnitude f * Vector3.SqrMagnitude t := Real.mul_self_sqrt (le_of_lt hFT)
  have hbranch : ¬ |Vector3.Dot f t
      / Real.sqrt (Vector3.SqrMagnitude f * Vector3.SqrMagnitude t) + 1| < 0.00001 := by
    rw [abs_of_nonneg (le_trans (by norm_num) hopp)]
    exact not_lt.mpr hopp
  have hdk : 0 < Real.sqrt (Vector3.SqrMagnitude f * Vector3.SqrMagnitude t)
      + Vector3.Dot f t := by
    have h1 : 0 < Vector3.Dot f t
        / Real.sqrt (Vector3.SqrMagnitude f * Vector3.SqrMagnitude t) + 1 :=
      lt_of_lt_of_le (by norm_num) hopp
    have h2 : Vector3.Dot f t
        / Real.sqrt (Vector3.SqrMagnitude f * Vector3.SqrMagnitude t) + 1
        = (Real.sqrt (Vector3.SqrMagnitude f * Vector3.SqrMagnitude t) + Vector3.Dot f t)
          / Real.sqrt (Vector3.SqrMagnitude f * Vector3.SqrMagnitude t) := by
      field_simp
      ring
    rw [h2] at h1
    exact (div_pos_iff_of_pos_right hkpos).mp h1
  generalize hk : Real.sqrt (Vector3.SqrMagnitude f * Vector3.SqrMagnitude t) = k
    at hkpos hkk hbranch hdk
  have hNN := Quaternion.sumSq_cross_quaternion f t k hkk
  have hNNpos : 0 < Quaternion.Norm (Quaternion.ofVector (Vector3.Cross f t)
      (Vector3.Dot f t + k)) * Quaternion.Norm (Quaternion.ofVector (Vector3.Cross f t)
      (Vector3.Dot f t + k)) := by
    rw [hNN]
    exact mul_pos (mul_pos (by norm_num) hkpos) hdk
  have hN : Quaternion.Norm (Quaternion.ofVector (Vector3.Cross f t)
      (Vector3.Dot f t + k)) ≠ 0 := by
    intro h0
    rw [h0] at hNNpos
    norm_num at hNNpos
  unfold Quaternion.FromToRotation
  rw [hk, if_neg hbranch]
  refine ⟨Quaternion.Norm_Normalized hN, ?_⟩
  unfold Quaternion.Normalized
  rw [Quaternion.rotate_divScalar _ _ hN, Quaternion.rotate_cross_quaternion f t k hkk, hNN]
  have hsq : Real.sqrt (Vector3.SqrMagnitude f) / Real.sqrt (Vector3.SqrMagnitude t)
      = Vector3.SqrMagnitude f / k := by
    have hsF := Real.sqrt_pos.mpr hF
    have hsT := Real.sqrt_pos.mpr hT
    have e1 : k = Real.sqrt (Vector3.SqrMagnitude f) * Real.sqrt (Vector3.SqrMagnitude t) := by
      rw [← hk, Real.sqrt_mul (le_of_lt hF)]
    have e2 : Vector3.SqrMagnitude f
        = Real.sqrt (Vector3.SqrMagnitude f) * Real.sqrt (Vector3.SqrMagnitude f) :=
      (Real.mul_self_sqrt (le_of_lt hF)).symm
    rw [div_eq_div_iff (ne_of_gt hsT) (ne_of_gt hkpos), e1]
    linear_combination (-Real.sqrt (Vector3.SqrMagnitude t)) * e2
  rw [hsq]
  have hkne : k ≠ 0 := ne_of_gt hkpos
  have hdkne : k + Vector3.Dot f t ≠ 0 := ne_of_gt hdk
  ext
  · simp only [Vector3.divScalar, Vector3.mulScalar]
    field_simp
    ring
  · simp only [Vector3.divScalar, Vector3.mulScalar]
    field_simp
    ring
  · simp only [Vector3.divScalar, Vector3.mulScalar]
    field_simp
    ring

/-- Witness for C14: from (1, 0, 0) to (0, 2, 0), a quarter turn. -/
theorem C14_fromToRotation_rotates_witness :
    (⟨1, 0, 0⟩ : Vector3) ≠ Vector3.Zero ∧ (⟨0, 2, 0⟩ : Vector3) ≠ Vector3.Zero
    ∧ (0.00001 : ℝ) ≤ Vector3.Dot ⟨1, 0, 0⟩ ⟨0, 2, 0⟩
        / Real.sqrt (Vector3.SqrMagnitude ⟨1, 0, 0⟩ * Vector3.SqrMagnitude ⟨0, 2, 0⟩) + 1
    ∧ Quaternion.Norm (Quaternion.FromToRotation ⟨1, 0, 0⟩ ⟨0, 2, 0⟩) = 1
    ∧ Quaternion.rotate (Quaternion.FromToRotation ⟨1, 0, 0⟩ ⟨0, 2, 0⟩) ⟨1, 0, 0⟩
      = Vector3.mulScalar ⟨0, 2, 0⟩
          (Real.sqrt (Vector3.SqrMagnitude ⟨1, 0, 0⟩)
            / Real.sqrt (Vector3.SqrMagnitude ⟨0, 2, 0⟩)) := by
  have hf : (⟨1, 0, 0⟩ : Vector3) ≠ Vector3.Zero := by
    intro h
    have := congrArg Vector3.X h
    norm_num [Vector3.Zero] at this
  have ht : (⟨0, 2, 0⟩ : Vector3) ≠ Vector3.Zero := by
    intro h
    have := congrArg Vector3.Y h
    norm_num [Vector3.Zero] at this
  have hopp : (0.00001 : ℝ) ≤ Vector3.Dot ⟨1, 0, 0⟩ ⟨0, 2, 0⟩
      / Real.sqrt (Vector3.SqrMagnitude ⟨1, 0, 0⟩ * Vector3.SqrMagnitude ⟨0, 2, 0⟩) + 1 := by
    norm_num [Vector3.Dot]
  exact ⟨hf, ht, hopp, C14_fromToRotation_rotates ⟨1, 0, 0⟩ ⟨0, 2, 0⟩ hf ht hopp⟩

namespace Quaternion

/-- On exactly opposite vectors `FromToRotation` takes its first branch. -/
theorem FromToRotation_opposite (v : Vector3) (hv : v ≠ Vector3.Zero) :
    FromToRotation v (Vector3.mulScalar v (-1))
      = ofVector (Vector3.Normalized (Vector3.Orthogonal v)) 0 := by
  have hF := Vector3.SqrMagnitude_pos hv
  have hS : Vector3.SqrMagnitude (Vector3.mulScalar v (-1)) = Vector3.SqrMagnitude v := by
    simp only [Vector3.SqrMagnitude, Vector3.mulScalar]
    ring
  have hD : Vector3.Dot v (Vector3.mulScalar v (-1)) = -Vector3.SqrMagnitude v := by
    simp only [Vector3.SqrMagnitude, Vector3.Dot, Vector3.mulScalar]
    ring
  unfold FromToRotation
  rw [hS, hD, Real.sqrt_mul_self (le_of_lt hF), neg_div, div_self (ne_of_gt hF), if_pos]
  norm_num

/-- Where `Vector3::Orthogonal` does not return the zero vector, `FromToRotation` on
opposite vectors is a unit quaternion that turns the vector into its opposite. -/
theorem FromToRotation_opposite_of_orthogonal_ne_zero (v : Vector3) (hv : v ≠ Vector3.Zero)
    (ho : Vector3.Orthogonal v ≠ Vector3.Zero) :
    Norm (FromToRotation v (Vector3.mulScalar v (-1))) = 1
    ∧ rotate (FromToRotation v (Vector3.mulScalar v (-1))) v = Vector3.mulScalar v (-1) := by
  rw [FromToRotation_opposite v hv]
  have hO := Vector3.SqrMagnitude_pos ho
  have hm : 0 < Real.sqrt ((Vector3.Orthogonal v).X * (Vector3.Orthogonal v).X
      + (Vector3.Orthogonal v).Y * (Vector3.Orthogonal v).Y
      + (Vector3.Orthogonal v).Z * (Vector3.Orthogonal v).Z) := Real.sqrt_pos.mpr hO
  have hmm : Real.sqrt ((Vector3.Orthogonal v).X * (Vector3.Orthogonal v).X
      + (Vector3.Orthogonal v).Y * (Vector3.Orthogonal v).Y
      + (Vector3.Orthogonal v).Z * (Vector3.Orthogonal v).Z)
      * Real.sqrt ((Vector3.Orthogonal v).X * (Vector3.Orthogonal v).X
      + (Vector3.Orthogonal v).Y * (Vector3.Orthogonal v).Y
      + (Vector3.Orthogonal v).Z * (Vector3.Orthogonal v).Z)
      = (Vector3.Orthogonal v).X * (Vector3.Orthogonal v).X
      + (Vector3.Orthogonal v).Y * (Vector3.Orthogonal v).Y
      + (Vector3.Orthogonal v).Z * (Vector3.Orthogonal v).Z :=
    Real.mul_self_sqrt (le_of_lt hO)
  have hperp : (Vector3.Orthogonal v).X * v.X + (Vector3.Orthogonal v).Y * v.Y
      + (Vector3.Orthogonal v).Z * v.Z = 0 := by
    unfold Vector3.Orthogonal
    split_ifs <;> simp only [] <;> ring
  have hN : Vector3.Normalized (Vector3.Orthogonal v)
      = Vector3.divScalar (Vector3.Orthogonal v)
          (Real.sqrt ((Vector3.Orthogonal v).X * (Vector3.Orthogonal v).X
            + (Vector3.Orthogonal v).Y * (Vector3.Orthogonal v).Y
            + (Vector3.Orthogonal v).Z * (Vector3.Orthogonal v).Z)) := by
    unfold Vector3.Normalized
    rw [if_neg (ne_of_gt hm)]
  rw [hN]
  generalize Vector3.Orthogonal v = o at hm hmm hperp
  generalize Real.sqrt (o.X * o.X + o.Y * o.Y + o.Z * o.Z) = m at hm hmm
  have hmne : m ≠ 0 := ne_of_gt hm
  have h2 : (2.0 : ℝ) = 2 := by norm_num
  have hunit : o.X / m * (o.X / m) + o.Y / m * (o.Y / m) + o.Z / m * (o.Z / m) = 1 := by
    field_simp
    linarith
  have hdot : o.X / m * v.X + o.Y / m * v.Y + o.Z / m * v.Z = 0 := by
    field_simp
    linarith
  constructor
  · rw [Norm_eq_one_iff]
    simp only [ofVector, Vector3.divScalar]
    linarith
  · ext
    · simp only [rotate, ofVector, Vector3.divScalar, Vector3.add, Vector3.mulScalar,
        Vector3.Dot, Vector3.Cross, h2]
      rw [hdot, hunit]
      ring
    · simp only [rotate, ofVector, Vector3.divScalar, Vector3.add, Vector3.mulScalar,
        Vector3.Dot, Vector3.Cross, h2]
      rw [hdot, hunit]
      ring
    · simp only [rotate, ofVector, Vector3.divScalar, Vector3.add, Vector3.mulScalar,
        Vector3.Dot, Vector3.Cross, h2]
      rw [hdot, hunit]
      ring

end Quaternion

/-- The function `Vector3::Orthogonal` also returns the zero vector for (-1, 0, 0). -/
theorem Vector3.Orthogonal_neg_x_axis : Vector3.Orthogonal ⟨-1, 0, 0⟩ = Vector3.Zero := by
  unfold Vector3.Orthogonal
  rw [if_neg (by norm_num)]
  simp [Vector3.Zero]

/-- C15 (the code at the failing input): for `v = (0, 0, -1)`, `Vector3::Orthogonal(v)`
is the zero vector, so `FromToRotation(v, -v)` is the zero quaternion: its norm is 0, not
1, and it sends `v` to (0, 0, 0), not to `-v = (0, 0, 1)`. -/
theorem C15_fromToRotation_opposite_failing_input :
    Vector3.Orthogonal ⟨0, 0, -1⟩ = Vector3.Zero
    ∧ Quaternion.FromToRotation ⟨0, 0, -1⟩ (Vector3.mulScalar ⟨0, 0, -1⟩ (-1)) = ⟨0, 0, 0, 0⟩
    ∧ Quaternion.Norm
        (Quaternion.FromToRotation ⟨0, 0, -1⟩ (Vector3.mulScalar ⟨0, 0, -1⟩ (-1))) = 0
    ∧ Quaternion.rotate
        (Quaternion.FromToRotation ⟨0, 0, -1⟩ (Vector3.mulScalar ⟨0, 0, -1⟩ (-1))) ⟨0, 0, -1⟩
        = ⟨0, 0, 0⟩
    ∧ Vector3.mulScalar ⟨0, 0, -1⟩ (-1) = ⟨0, 0, 1⟩ := by
  have hv : (⟨0, 0, -1⟩ : Vector3) ≠ Vector3.Zero := by
    intro h
    have := congrArg Vector3.Z h
    norm_num [Vector3.Zero] at this
  have ho : Vector3.Orthogonal ⟨0, 0, -1⟩ = Vector3.Zero := by
    unfold Vector3.Orthogonal
    rw [if_pos (by norm_num)]
    simp [Vector3.Zero]
  have hq : Quaternion.FromToRotation ⟨0, 0, -1⟩ (Vector3.mulScalar ⟨0, 0, -1⟩ (-1))
      = ⟨0, 0, 0, 0⟩ := by
    rw [Quaternion.FromToRotation_opposite _ hv, ho]
    simp [Vector3.Normalized, Vector3.Zero, Quaternion.ofVector]
  refine ⟨ho, hq, ?_, ?_, ?_⟩
  · rw [hq]
    simp [Quaternion.Norm]
  · rw [hq]
    simp [Quaternion.rotate, Vector3.add, Vector3.mulScalar, Vector3.Dot, Vector3.Cross]
  · simp [Vector3.mulScalar]

/-! ## Claims on parameter links -/

/-- For every link type but `CUSTOM_PARAM`, `getLinkLabel` returns a label, provided a
spatializer pointer to a deleted item comes with a `spatRef` that reports the deletion. -/
theorem getLinkLabel_isSome_of_not_custom (link : ParameterLink)
    (htype : link.linkType ≠ LinkType.CUSTOM_PARAM)
    (hspat : link.spatializer = ItemPointer.deleted → link.spatRefWasObjectDeleted = true) :
    (getLinkLabel link).isSome = true := by
  have hs : (spatializerLabel link).isSome = true := by
    unfold spatializerLabel
    split_ifs with h
    · cases hsp : link.spatializer with
      | null => exact absurd hsp h.1
      | deleted =>
        have := hspat hsp
        rw [h.2] at this
        exact absurd this (by decide)
      | live n => rfl
    · rfl
  unfold getLinkLabel
  cases hl : link.linkType <;> simp_all

/-- With a live custom parameter the `CUSTOM_PARAM` label carries its name; a spatializer
that is null or reported deleted is shown as "[deleted]". -/
theorem getLinkLabel_examples (n : String) (cp sp : ItemPointer) (b : Bool) :
    getLinkLabel ⟨LinkType.CUSTOM_PARAM, ItemPointer.live n, sp, b⟩ = some ("Custom : " ++ n)
    ∧ getLinkLabel ⟨LinkType.SPAT_X, cp, sp, true⟩ = some "Spat X ([deleted])"
    ∧ getLinkLabel ⟨LinkType.SPAT_Z, cp, ItemPointer.null, b⟩ = some "Spat Z ([deleted])"
    ∧ getLinkLabel ⟨LinkType.SPAT_XZ, cp, ItemPointer.live n, false⟩
        = some ("Spat XZ (" ++ n ++ ")") := by
  refine ⟨rfl, ?_, ?_, ?_⟩
  · simp [getLinkLabel, spatializerLabel]
  · simp [getLinkLabel, spatializerLabel]
  · simp [getLinkLabel, spatializerLabel, ItemPointer.niceName]

/-- C20 (the code at the failing input): with link type `CUSTOM_PARAM`, `getLinkLabel`
dereferences `linkedCustomParam` without any check, so it faults when the custom
parameter is null or deleted, whereas the three `SPAT_` cases check the spatializer and
show "[deleted]". -/
theorem C20_getLinkLabel_custom_param_failing_input :
    getLinkLabel ⟨LinkType.CUSTOM_PARAM, ItemPointer.null, ItemPointer.null, false⟩ = none
    ∧ getLinkLabel ⟨LinkType.CUSTOM_PARAM, ItemPointer.deleted, ItemPointer.null, false⟩ = none
    ∧ getLinkLabel ⟨LinkType.SPAT_X, ItemPointer.null, ItemPointer.null, false⟩
        = some "Spat X ([deleted])"
    ∧ getLinkLabel ⟨LinkType.SPAT_X, ItemPointer.null, ItemPointer.deleted, true⟩
        = some "Spat X ([deleted])" := by
  decide

end Blux
